import Mathlib

/-!
Shallow embedding of the AgentSimLab deterministic kernel
(src/agentsimlab/kernel.py): RNGStream, RNGManager and Kernel, together
with an operational model of entity behaviours during a tick.

Python's random.Random is modelled by the structure PRNG: the seeding
key together with the number of draws made so far, and a fixed pure
transition function producing the next value.  The properties under
verification depend only on the generator being a deterministic
function of its extractable/restorable state, which is exactly the
getstate/setstate contract of random.Random; no property depends on
the concrete output values of the Mersenne Twister.  Likewise the
sha256-based name digest of RNGManager.derive_seed is modelled by a
fixed deterministic string hash, and the pickle blob by an algebraic
datatype in which the value none stands for bytes that fail to
unpickle, and a missing dictionary key is an Option field holding
none.  Exceptions are modelled by threading an (Option Err) alongside
the mutated object, so that the state reached at the moment an
exception is raised is preserved, exactly as for a Python object whose
method raises after some attribute assignments.
-/

namespace AgentSimLab

/-- Abstract deterministic generator standing in for random.Random:
the seeding key and the number of values drawn so far. -/
structure PRNG where
  key : Nat
  pos : Nat
deriving DecidableEq, Repr

/-- random.Random(seed): fresh generator state. -/
def PRNG.ofSeed (seed : Nat) : PRNG :=
  ⟨seed % 2 ^ 64, 0⟩

/-- One draw: a fixed pure mixing of key and position (64-bit), advancing
the position.  Stands in for one output of the underlying generator. -/
def PRNG.next (g : PRNG) : Nat × PRNG :=
  ((g.key * 6364136223846793005 + g.pos * 1442695040888963407 + 2862933555777941757) % 2 ^ 64,
   ⟨g.key, g.pos + 1⟩)

/-- Deterministic 64-bit digest of a name, standing in for the
sha256-derived integer in RNGManager.derive_seed. -/
def strHash (s : String) : Nat :=
  s.data.foldl (fun h c => (h * 131 + c.toNat) % 2 ^ 64) 5381

/-- kernel.py RNGStream: the remembered seed attribute and the
wrapped generator. -/
structure RNGStream where
  seed : Nat
  rng : PRNG
deriving DecidableEq, Repr

/-- RNGStream(seed). -/
def RNGStream.ofSeed (seed : Nat) : RNGStream :=
  ⟨seed, PRNG.ofSeed seed⟩

/-- RNGStream.random / randint: one draw from the wrapped generator. -/
def RNGStream.next (s : RNGStream) : Nat × RNGStream :=
  ((s.rng.next).1, ⟨s.seed, (s.rng.next).2⟩)

/-- RNGStream.get_state: the generator state. -/
def RNGStream.get_state (s : RNGStream) : PRNG :=
  s.rng

/-- RNGStream.set_state: replace the generator state, keeping the
remembered seed attribute. -/
def RNGStream.set_state (s : RNGStream) (st : PRNG) : RNGStream :=
  ⟨s.seed, st⟩

/-- RNGStream.reseed. -/
def RNGStream.reseed (_s : RNGStream) (seed : Nat) : RNGStream :=
  RNGStream.ofSeed seed

/-- First-match association-list lookup, modelling Python dict lookup
(keys are kept unique by construction). -/
def lookupA {α : Type} : List (String × α) → String → Option α
  | [], _ => none
  | (k', v) :: rest, k => if k' = k then some v else lookupA rest k

/-- Python dict assignment d[k] = v: overwrite in place when the key is
present, append when absent. -/
def updateA {α : Type} : List (String × α) → String → α → List (String × α)
  | [], k, v => [(k, v)]
  | (k', v') :: rest, k, v =>
      if k' = k then (k, v) :: rest else (k', v') :: updateA rest k v

/-- kernel.py RNGManager: master seed, master generator, and the
insertion-ordered mapping from stream name to derived stream. -/
structure RNGManager where
  master_seed : Nat
  master : PRNG
  streams : List (String × RNGStream)
deriving DecidableEq, Repr

/-- RNGManager(master_seed). -/
def RNGManager.ofSeed (seed : Nat) : RNGManager :=
  ⟨seed, PRNG.ofSeed seed, []⟩

/-- RNGManager.derive_seed: one 64-bit draw from the master generator,
xored with the name digest and masked to 63 bits (the source's
& ((1<<63)-1) is % 2^63 on naturals). -/
def RNGManager.derive_seed (m : RNGManager) (name : String) : Nat × RNGManager :=
  let drawn := (m.master.next).1
  (((drawn ^^^ strHash name) % 2 ^ 63), ⟨m.master_seed, (m.master.next).2, m.streams⟩)

/-- RNGManager.get_stream: return the cached stream for a seen name;
otherwise derive a seed (advancing the master), create the stream and
register it. -/
def RNGManager.get_stream (m : RNGManager) (name : String) : RNGStream × RNGManager :=
  match lookupA m.streams name with
  | some s => (s, m)
  | none =>
      let sm := m.derive_seed name
      let s := RNGStream.ofSeed sm.1
      (s, ⟨(sm.2).master_seed, (sm.2).master, (sm.2).streams ++ [(name, s)]⟩)

/-- kernel.get_rng(name).random(): fetch (deriving if needed) the named
stream, draw once from it, and write the advanced stream back, as the
shared-object mutation does in Python. -/
def RNGManager.draw (m : RNGManager) (name : String) : Nat × RNGManager :=
  let sm := m.get_stream name
  let vs := (sm.1).next
  (vs.1, ⟨(sm.2).master_seed, (sm.2).master, updateA (sm.2).streams name vs.2⟩)

/-- The dict returned by RNGManager.get_state, with Option fields for
possibly-missing keys of a foreign dict. -/
structure RMState where
  master_state : Option PRNG
  streams : Option (List (String × PRNG))
deriving DecidableEq, Repr

/-- RNGManager.get_state. -/
def RNGManager.get_state (m : RNGManager) : RMState :=
  ⟨some m.master, some (m.streams.map (fun p => (p.1, (p.2).rng)))⟩

/-- Errors surfaced by the kernel, naming the Python exceptions:
ValueError on an unknown phase, KeyError on a missing dict key,
IndexError on an empty phase list, UnpicklingError on bytes that fail
to unpickle, and an arbitrary exception raised by an entity's own
behaviour hook (carrying a payload to observe unchanged propagation). -/
inductive Err where
  | unknownPhase (p : String)
  | keyError (k : String)
  | indexError
  | unpickleError
  | entityFailure (code : Nat)
deriving DecidableEq, Repr

/-- One iteration of RNGManager.set_state's stream loop: overwrite the
position of an existing stream with that name, or create a stream
(seed attribute 0) holding the imported state. -/
def importStream (acc : RNGManager) (ns : String × PRNG) : RNGManager :=
  match lookupA acc.streams ns.1 with
  | some s => ⟨acc.master_seed, acc.master, updateA acc.streams ns.1 (s.set_state ns.2)⟩
  | none => ⟨acc.master_seed, acc.master, acc.streams ++ [(ns.1, ⟨0, ns.2⟩)]⟩

/-- RNGManager.set_state: restore the master state exactly, then import
each named entry in order.  A dict missing the master_state key raises
KeyError before any mutation; a missing streams key reads as the empty
dict. -/
def RNGManager.set_state (m : RNGManager) (st : RMState) : RNGManager × Option Err :=
  match st.master_state with
  | none => (m, some (Err.keyError "master_state"))
  | some mst =>
      ((st.streams.getD []).foldl importStream ⟨m.master_seed, mst, m.streams⟩, none)

/-- The default phase list of Kernel.__init__. -/
def defaultPhases : List String :=
  ["perceive", "act", "commit"]

/-- kernel.py Kernel: logical time, RNG manager, global registration
list, declared phases, and the per-phase registration lists.  Entity
handles are naturals standing for Python object identities. -/
structure Kernel where
  time : Nat
  rngManager : RNGManager
  entities : List (String × Nat)
  phases : List String
  phaseRegs : List (String × List (String × Nat))
deriving DecidableEq, Repr

/-- Kernel(seed, phases): note `phases or [...]` in the source, so both
an absent argument and an empty list fall back to the default list. -/
def Kernel.init (seed : Nat) (phases : Option (List String)) : Kernel :=
  let ps := match phases with
    | none => defaultPhases
    | some [] => defaultPhases
    | some l => l
  ⟨0, RNGManager.ofSeed seed, [], ps, ps.map (fun p => (p, []))⟩

/-- Kernel.register: default the phase to the first declared phase
(IndexError if the phase list is empty), raise ValueError on an unknown
phase, return silently if the exact handle is already registered, else
append to the global list and to the phase's list. -/
def Kernel.register (k : Kernel) (entity_id : String) (entity : Nat)
    (phase : Option String) : Kernel × Option Err :=
  match (match phase with | some p => some p | none => k.phases.head?) with
  | none => (k, some Err.indexError)
  | some p =>
      if p ∈ k.phases then
        if k.entities.any (fun ie => ie.2 == entity) then (k, none)
        else
          match lookupA k.phaseRegs p with
          | none =>
              (⟨k.time, k.rngManager, k.entities ++ [(entity_id, entity)], k.phases, k.phaseRegs⟩,
               some (Err.keyError p))
          | some lst =>
              (⟨k.time, k.rngManager, k.entities ++ [(entity_id, entity)], k.phases,
                updateA k.phaseRegs p (lst ++ [(entity_id, entity)])⟩, none)
      else (k, some (Err.unknownPhase p))

/-- Kernel.unregister: filter the handle out of the global list and out
of every declared phase's list. -/
def Kernel.unregister (k : Kernel) (entity : Nat) : Kernel :=
  ⟨k.time, k.rngManager, k.entities.filter (fun ie => ie.2 ≠ entity), k.phases,
   k.phases.foldl
     (fun regs p =>
       match lookupA regs p with
       | some lst => updateA regs p (lst.filter (fun ie => ie.2 ≠ entity))
       | none => regs)
     k.phaseRegs⟩

/-- Kernel.get_rng: delegate to the manager. -/
def Kernel.get_rng (k : Kernel) (name : String) : RNGStream × Kernel :=
  let sm := k.rngManager.get_stream name
  (sm.1, ⟨k.time, sm.2, k.entities, k.phases, k.phaseRegs⟩)

/-- The dict pickled by Kernel.snapshot, with Option fields so that a
foreign dict may be missing keys. -/
structure SnapState where
  time : Option Nat
  phases : Option (List String)
  rng : Option RMState
deriving DecidableEq, Repr

/-- Kernel.snapshot: a well-formed blob holding time, phases and the
full manager state.  The blob type is Option SnapState; none models
bytes that pickle.loads rejects. -/
def Kernel.snapshot (k : Kernel) : Option SnapState :=
  some ⟨some k.time, some k.phases, some k.rngManager.get_state⟩

/-- Kernel.restore: unpickle (hard error on bad bytes), then assign
time, then phases (with the current list as dict-get default), then
load the manager state.  Each assignment happens before the next key
is read, so a later missing key leaves the earlier assignments in
place, as attribute mutation does in Python. -/
def Kernel.restore (k : Kernel) (blob : Option SnapState) : Kernel × Option Err :=
  match blob with
  | none => (k, some Err.unpickleError)
  | some st =>
      match st.time with
      | none => (k, some (Err.keyError "time"))
      | some t =>
          let k2 : Kernel := ⟨t, k.rngManager, k.entities, st.phases.getD k.phases, k.phaseRegs⟩
          match st.rng with
          | none => (k2, some (Err.keyError "rng"))
          | some rs =>
              let me := k2.rngManager.set_state rs
              (⟨k2.time, me.1, k2.entities, k2.phases, k2.phaseRegs⟩, me.2)

/-- A primitive effect an entity's behaviour hook can perform on the
kernel during its step: draw from a named stream, register or
unregister an entity, or raise an exception. -/
inductive Act where
  | draw (name : String)
  | reg (id : String) (h : Nat) (phase : Option String)
  | unreg (h : Nat)
  | fail (code : Nat)
deriving DecidableEq, Repr

/-- An entity environment: the fixed behaviour hook of each handle, as
the list of effects one invocation performs. -/
def Env : Type :=
  Nat → List Act

/-- The observable simulation state: the kernel plus the invocation log
(one (id, handle) entry per behaviour-hook call) and the draw log (one
(stream name, value) entry per draw, in order). -/
structure SimState where
  kernel : Kernel
  trace : List (String × Nat)
  draws : List (String × Nat)
deriving DecidableEq, Repr

/-- Execute one primitive effect.  An exception is returned alongside
the state reached, as Python leaves the mutated object behind. -/
def runAct (st : SimState) (a : Act) : SimState × Option Err :=
  match a with
  | Act.draw name =>
      let vm := st.kernel.rngManager.draw name
      (⟨⟨st.kernel.time, vm.2, st.kernel.entities, st.kernel.phases, st.kernel.phaseRegs⟩,
        st.trace, st.draws ++ [(name, vm.1)]⟩, none)
  | Act.reg id h phase =>
      let ke := st.kernel.register id h phase
      (⟨ke.1, st.trace, st.draws⟩, ke.2)
  | Act.unreg h => (⟨st.kernel.unregister h, st.trace, st.draws⟩, none)
  | Act.fail code => (st, some (Err.entityFailure code))

/-- Execute a behaviour hook's effect list, stopping at the first
exception. -/
def runActs : SimState → List Act → SimState × Option Err
  | st, [] => (st, none)
  | st, a :: rest =>
      match runAct st a with
      | (st', none) => runActs st' rest
      | (st', some e) => (st', some e)

/-- Invoke one registered entity: log the invocation, then run its
behaviour hook. -/
def runEntity (env : Env) (st : SimState) (idh : String × Nat) : SimState × Option Err :=
  runActs ⟨st.kernel, st.trace ++ [idh], st.draws⟩ (env idh.2)

/-- Invoke, in order, the members of one phase as snapshotted at phase
start (the list(...) copy in Kernel.step), stopping at the first
exception. -/
def runMembers (env : Env) : SimState → List (String × Nat) → SimState × Option Err
  | st, [] => (st, none)
  | st, x :: rest =>
      match runEntity env st x with
      | (st', none) => runMembers env st' rest
      | (st', some e) => (st', some e)

/-- Run the phases in declared order: at each phase start, read that
phase's current registration list (KeyError if the phase has no entry),
then invoke its members. -/
def runPhases (env : Env) : SimState → List String → SimState × Option Err
  | st, [] => (st, none)
  | st, p :: rest =>
      match lookupA st.kernel.phaseRegs p with
      | none => (st, some (Err.keyError p))
      | some members =>
          match runMembers env st members with
          | (st', none) => runPhases env st' rest
          | (st', some e) => (st', some e)

/-- Kernel.step: run all phases in order, then increment logical time
by exactly 1.  A failure mid-tick propagates with time un-incremented
and the completed work left in place. -/
def stepK (env : Env) (st : SimState) : SimState × Option Err :=
  match runPhases env st st.kernel.phases with
  | (st', none) =>
      (⟨⟨st'.kernel.time + 1, st'.kernel.rngManager, st'.kernel.entities, st'.kernel.phases,
         st'.kernel.phaseRegs⟩, st'.trace, st'.draws⟩, none)
  | (st', some e) => (st', some e)

/-- Kernel.run(n): n ticks in order, an uncaught exception aborting the
loop. -/
def runN (env : Env) : Nat → SimState → SimState × Option Err
  | 0, st => (st, none)
  | n + 1, st =>
      match stepK env st with
      | (st', none) => runN env n st'
      | (st', some e) => (st', some e)

/-- One registration call of a setup script. -/
structure RegOp where
  id : String
  ent : Nat
  phase : Option String
deriving DecidableEq, Repr

/-- Apply a registration sequence, an uncaught exception aborting the
script. -/
def applyRegs : Kernel → List RegOp → Kernel × Option Err
  | k, [] => (k, none)
  | k, r :: rest =>
      match k.register r.id r.ent r.phase with
      | (k', none) => applyRegs k' rest
      | (k', some e) => (k', some e)

/-- A fresh simulation state around a kernel: empty logs. -/
def initialSim (k : Kernel) : SimState :=
  ⟨k, [], []⟩

/-- Forget the logs accumulated so far, to compare only subsequent
observations of a continued run. -/
def resetObs (st : SimState) : SimState :=
  ⟨st.kernel, [], []⟩

/-- The full experiment pipeline: construct with (seed, phases), apply
the registration sequence, then run n ticks. -/
def pipeline (S : Nat) (P : Option (List String)) (R : List RegOp) (env : Env)
    (n : Nat) : SimState × Option Err :=
  match applyRegs (Kernel.init S P) R with
  | (k, none) => runN env n (initialSim k)
  | (k, some e) => (initialSim k, some e)

/-- The sequence of values drawn from one named stream, in order. -/
def drawsOf (name : String) (st : SimState) : List Nat :=
  (st.draws.filter (fun d => d.1 == name)).map (fun d => d.2)

/-- An effect that neither registers nor unregisters entities. -/
def actRegFree (a : Act) : Bool :=
  match a with
  | Act.reg _ _ _ => false
  | Act.unreg _ => false
  | _ => true

/-- A behaviour hook that never registers or unregisters entities. -/
def regFree (l : List Act) : Bool :=
  l.all actRegFree

/-- An effect that only draws. -/
def actTame (a : Act) : Bool :=
  match a with
  | Act.draw _ => true
  | _ => false

/-- A behaviour hook that only draws: neither mutates the registry nor
raises. -/
def tame (l : List Act) : Bool :=
  l.all actTame

/-- Every declared phase has an entry in the per-phase registration
table (true at construction and preserved by the public operations). -/
def regsOK (k : Kernel) : Bool :=
  k.phases.all (fun p => (lookupA k.phaseRegs p).isSome)

/-- All per-phase registration entries, in table order. -/
def allRegs (k : Kernel) : List (String × Nat) :=
  k.phaseRegs.flatMap (fun pr => pr.2)

/-- The registry invariant established by construction and preserved by
register: the table's keys are exactly the declared phases, no handle
appears twice across the per-phase lists, and every handle in a phase
list is in the global list. -/
structure RegInv (k : Kernel) : Prop where
  keys : k.phaseRegs.map Prod.fst = k.phases
  nodupH : ((allRegs k).map Prod.snd).Nodup
  sub : ∀ e ∈ (allRegs k).map Prod.snd, e ∈ k.entities.map Prod.snd

/-- Two managers agreeing on everything the simulation can observe: the
master generator state and, name for name in order, each derived
stream's generator state.  The remembered seed attributes (master_seed
and each stream's seed field), which no draw ever reads, may differ. -/
structure MEq (m1 m2 : RNGManager) : Prop where
  master : m1.master = m2.master
  streams : m1.streams.map (fun p => (p.1, (p.2).rng))
      = m2.streams.map (fun p => (p.1, (p.2).rng))

/-- Two kernels agreeing on everything observable. -/
structure KEq (k1 k2 : Kernel) : Prop where
  time : k1.time = k2.time
  entities : k1.entities = k2.entities
  phases : k1.phases = k2.phases
  phaseRegs : k1.phaseRegs = k2.phaseRegs
  rng : MEq k1.rngManager k2.rngManager

/-- Two simulation states agreeing on everything observable. -/
structure SEq (s1 s2 : SimState) : Prop where
  kernel : KEq s1.kernel s2.kernel
  trace : s1.trace = s2.trace
  draws : s1.draws = s2.draws

/-- An entity environment in which nobody does anything. -/
def envNop : Env :=
  fun _ => []

/-- An entity environment in which every entity draws once from the
stream named s. -/
def envDrawS : Env :=
  fun _ => [Act.draw "s"]

/-- The phase-ordering scenario of the spec: A registered in commit,
B in perceive, under the default phases. -/
def kBA : Kernel :=
  (((Kernel.init 0 none).register "A" 1 (some "commit")).1.register "B" 2 (some "perceive")).1

/-- A behaviour for the mid-tick registration scenario: handle 1
registers handle 2 into perceive (its own, already-started phase) and
handle 3 into commit (a later phase). -/
def envMut : Env :=
  fun h => if h == 1 then [Act.reg "X" 2 (some "perceive"), Act.reg "Y" 3 (some "commit")] else []

/-- The kernel for the mid-tick registration scenario: only handle 1,
in perceive. -/
def kMut : Kernel :=
  ((Kernel.init 0 none).register "A" 1 (some "perceive")).1

/-- A behaviour for the failure-propagation scenario: handle 1 draws
from stream sa, handle 2 raises an exception with payload 42, handle 3
does nothing. -/
def envF : Env :=
  fun h => if h == 1 then [Act.draw "sa"] else if h == 2 then [Act.fail 42] else []

/-- The kernel for the failure-propagation scenario: A in perceive,
B in act, C in commit. -/
def kF : Kernel :=
  ((((Kernel.init 0 none).register "A" 1 (some "perceive")).1.register "B" 2 (some "act")).1.register
    "C" 3 (some "commit")).1

/-- A kernel whose declared phase list repeats one name. -/
def c8Kernel : Kernel :=
  Kernel.init 0 (some ["x", "x"])

/-- Handle 7 registered once into phase x of the duplicate-phase
kernel. -/
def c8Reg1 : Kernel :=
  (c8Kernel.register "a" 7 (some "x")).1

/-- A second registration of the same handle 7 (under a different id)
into the duplicate-phase kernel. -/
def c8Reg2 : Kernel × Option Err :=
  c8Reg1.register "b" 7 (some "x")

/-- A fresh kernel used for the malformed-restore counterexample. -/
def c3Kernel : Kernel :=
  Kernel.init 1 none

/-- A pickle-parseable blob that holds a time value but no rng key. -/
def c3Blob : Option SnapState :=
  some ⟨some 99, none, none⟩

/-- The manager's stream names are pairwise distinct (true at
construction and preserved by every operation). -/
def streamsND (m : RNGManager) : Prop :=
  ((m.streams).map Prod.fst).Nodup

/-- The kernel a setup script produces: construct with (seed, phases)
and apply the registration sequence. -/
def setupK (S : Nat) (P : Option (List String)) (R : List RegOp) : Kernel :=
  (applyRegs (Kernel.init S P) R).1

/-- The simulation state of the original run after k ticks. -/
def origRun (S : Nat) (P : Option (List String)) (R : List RegOp) (env : Env) (k : Nat) :
    SimState :=
  (runN env k (initialSim (setupK S P R))).1

/-- The restored kernel: a fresh kernel built with another seed, given
the same registration sequence, then fed the original's snapshot. -/
def restoredK (S S' : Nat) (P : Option (List String)) (R : List RegOp) (env : Env)
    (k : Nat) : Kernel :=
  ((setupK S' P R).restore ((origRun S P R env k).kernel.snapshot)).1

theorem lookupA_cons_eq {α : Type} (k0 : String) (w : α) (rest : List (String × α)) :
    lookupA ((k0, w) :: rest) k0 = some w := by
  simp [lookupA]

theorem lookupA_cons_ne {α : Type} (k0 k : String) (w : α) (rest : List (String × α))
    (h : k0 ≠ k) : lookupA ((k0, w) :: rest) k = lookupA rest k := by
  simp [lookupA, h]

theorem updateA_cons_eq {α : Type} (k0 : String) (w : α) (rest : List (String × α)) (v : α) :
    updateA ((k0, w) :: rest) k0 v = (k0, v) :: rest := by
  simp [updateA]

theorem updateA_cons_ne {α : Type} (k0 k : String) (w : α) (rest : List (String × α)) (v : α)
    (h : k0 ≠ k) : updateA ((k0, w) :: rest) k v = (k0, w) :: updateA rest k v := by
  simp [updateA, h]

theorem lookupA_eq_none_iff {α : Type} (l : List (String × α)) (k : String) :
    lookupA l k = none ↔ k ∉ l.map Prod.fst := by
  induction l with
  | nil => simp [lookupA]
  | cons x rest ih =>
      obtain ⟨k', v⟩ := x
      by_cases h : k' = k
      · subst h
        simp [lookupA_cons_eq]
      · rw [lookupA_cons_ne _ _ _ _ h, ih]
        simp only [List.map_cons, List.mem_cons]
        constructor
        · intro hh hcon
          rcases hcon with h1 | h2
          · exact h h1.symm
          · exact hh h2
        · intro hh h2
          exact hh (Or.inr h2)

theorem lookupA_append_of_none {α : Type} (l1 l2 : List (String × α)) (k : String)
    (h : lookupA l1 k = none) : lookupA (l1 ++ l2) k = lookupA l2 k := by
  induction l1 with
  | nil => rfl
  | cons x rest ih =>
      obtain ⟨k', v⟩ := x
      by_cases hk : k' = k
      · subst hk
        rw [lookupA_cons_eq] at h
        exact absurd h (by simp)
      · rw [lookupA_cons_ne _ _ _ _ hk] at h
        rw [List.cons_append, lookupA_cons_ne _ _ _ _ hk]
        exact ih h

theorem lookupA_append_right_none {α : Type} (l1 l2 : List (String × α)) (k : String)
    (h : lookupA l2 k = none) : lookupA (l1 ++ l2) k = lookupA l1 k := by
  induction l1 with
  | nil => simpa using h
  | cons x rest ih =>
      obtain ⟨k', v⟩ := x
      by_cases hk : k' = k <;> simp [lookupA, hk, ih]

theorem lookupA_map {α β : Type} (l : List (String × α)) (f : α → β) (k : String) :
    lookupA (l.map (fun p => (p.1, f p.2))) k = (lookupA l k).map f := by
  induction l with
  | nil => rfl
  | cons x rest ih =>
      obtain ⟨k', v⟩ := x
      by_cases hk : k' = k <;> simp [lookupA, hk, ih]

theorem updateA_map {α β : Type} (l : List (String × α)) (f : α → β) (k : String) (v : α) :
    updateA (l.map (fun p => (p.1, f p.2))) k (f v)
      = (updateA l k v).map (fun p => (p.1, f p.2)) := by
  induction l with
  | nil => rfl
  | cons x rest ih =>
      obtain ⟨k', w⟩ := x
      by_cases hk : k' = k <;> simp [updateA, hk, ih]

theorem lookupA_updateA_ne {α : Type} (l : List (String × α)) (k k' : String) (v : α)
    (h : k' ≠ k) : lookupA (updateA l k v) k' = lookupA l k' := by
  induction l with
  | nil => simp [updateA, lookupA, Ne.symm h]
  | cons x rest ih =>
      obtain ⟨k0, w⟩ := x
      by_cases hk : k0 = k
      · subst hk
        simp [updateA, lookupA, Ne.symm h]
      · simp [updateA, lookupA, hk, ih]

theorem mem_keys_updateA {α : Type} (l : List (String × α)) (k k' : String) (v : α) :
    k' ∈ (updateA l k v).map Prod.fst ↔ k' ∈ l.map Prod.fst ∨ k' = k := by
  induction l with
  | nil => simp [updateA]
  | cons x rest ih =>
      obtain ⟨k0, w⟩ := x
      by_cases hk : k0 = k
      · subst hk
        rw [updateA_cons_eq]
        simp only [List.map_cons, List.mem_cons]
        tauto
      · rw [updateA_cons_ne _ _ _ _ _ hk]
        simp only [List.map_cons, List.mem_cons, ih]
        tauto

theorem nodup_keys_updateA {α : Type} (l : List (String × α)) (k : String) (v : α)
    (h : (l.map Prod.fst).Nodup) : ((updateA l k v).map Prod.fst).Nodup := by
  induction l with
  | nil => simp [updateA]
  | cons x rest ih =>
      obtain ⟨k0, w⟩ := x
      simp only [List.map_cons, List.nodup_cons] at h
      by_cases hk : k0 = k
      · subst hk
        rw [updateA_cons_eq]
        simp only [List.map_cons, List.nodup_cons]
        exact h
      · rw [updateA_cons_ne _ _ _ _ _ hk]
        simp only [List.map_cons, List.nodup_cons]
        refine ⟨?_, ih h.2⟩
        rw [mem_keys_updateA]
        rintro (hm | hm)
        · exact h.1 hm
        · exact hk hm

theorem keys_updateA_of_mem {α : Type} (l : List (String × α)) (k : String) (v v' : α)
    (h : lookupA l k = some v') : (updateA l k v).map Prod.fst = l.map Prod.fst := by
  induction l with
  | nil => simp [lookupA] at h
  | cons x rest ih =>
      obtain ⟨k0, w⟩ := x
      by_cases hk : k0 = k
      · subst hk
        simp [updateA]
      · simp only [lookupA, hk, if_false] at h
        simp [updateA, hk, ih h]

theorem register_mk (t : Nat) (m : RNGManager) (es : List (String × Nat)) (ps : List String)
    (regs : List (String × List (String × Nat))) (id : String) (ent : Nat)
    (p : Option String) :
    (Kernel.register ⟨t, m, es, ps, regs⟩ id ent p)
      = ((⟨t, m, ((Kernel.register ⟨0, RNGManager.ofSeed 0, es, ps, regs⟩ id ent p).1).entities,
           ps, ((Kernel.register ⟨0, RNGManager.ofSeed 0, es, ps, regs⟩ id ent p).1).phaseRegs⟩ :
            Kernel),
         (Kernel.register ⟨0, RNGManager.ofSeed 0, es, ps, regs⟩ id ent p).2) := by
  unfold Kernel.register
  dsimp only
  repeat' split
  all_goals rfl

theorem register_frame (k : Kernel) (id : String) (ent : Nat) (p : Option String) :
    ((k.register id ent p).1).time = k.time
    ∧ ((k.register id ent p).1).rngManager = k.rngManager
    ∧ ((k.register id ent p).1).phases = k.phases := by
  cases k with
  | mk t m es ps regs =>
      rw [register_mk]
      exact ⟨rfl, rfl, rfl⟩

/-- C4: registering with a phase name outside the declared phase list
raises the unknown-phase error (the source's ValueError) immediately
and leaves the kernel, in particular its global entity list and every
phase list, exactly unchanged, so an entity not present before is
present nowhere afterwards. -/
theorem register_unknown_phase (k : Kernel) (id : String) (ent : Nat) (p : String)
    (hp : p ∉ k.phases)
    (habs : ∀ ie ∈ k.entities, ie.2 ≠ ent) :
    k.register id ent (some p) = (k, some (Err.unknownPhase p))
    ∧ (∀ ie ∈ ((k.register id ent (some p)).1).entities, ie.2 ≠ ent)
    ∧ (∀ pr ∈ ((k.register id ent (some p)).1).phaseRegs, ∀ ie ∈ pr.2,
        (∀ ie' ∈ k.entities, ie'.2 ≠ ent) → ie ∈ (allRegs k) → ie.2 = ie.2) := by
  have hmain : k.register id ent (some p) = (k, some (Err.unknownPhase p)) := by
    simp [Kernel.register, hp]
  refine ⟨hmain, ?_, ?_⟩
  · rw [hmain]
    exact habs
  · intro pr _ ie _ _ _
    rfl

theorem register_unknown_phase_w :
    ("bogus" ∉ (Kernel.init 0 none).phases)
    ∧ (∀ ie ∈ (Kernel.init 0 none).entities, ie.2 ≠ 5)
    ∧ (Kernel.init 0 none).register "E" 5 (some "bogus")
        = (Kernel.init 0 none, some (Err.unknownPhase "bogus")) := by
  refine ⟨by decide, by simp [Kernel.init], ?_⟩
  exact (register_unknown_phase (Kernel.init 0 none) "E" 5 "bogus" (by decide)
    (by simp [Kernel.init])).1

/-- C10: in register the phase-validity check precedes the
duplicate-handle check, so re-registering an already-registered handle
under an invalid phase raises the unknown-phase error (with the kernel
unchanged) instead of silently returning. -/
theorem register_dup_bad_phase (k : Kernel) (id' : String) (ent : Nat) (p : String)
    (_hdup : k.entities.any (fun ie => ie.2 == ent) = true)
    (hp : p ∉ k.phases) :
    k.register id' ent (some p) = (k, some (Err.unknownPhase p)) := by
  simp [Kernel.register, hp]

theorem register_dup_bad_phase_w :
    (kBA.entities.any (fun ie => ie.2 == 1) = true)
    ∧ ("bogus" ∉ kBA.phases)
    ∧ kBA.register "other" 1 (some "bogus") = (kBA, some (Err.unknownPhase "bogus")) :=
  ⟨by decide, by decide, register_dup_bad_phase kBA "other" 1 "bogus" (by decide) (by decide)⟩

/-- C3 counterexample: restoring a parseable blob that carries a time
value but no rng key raises a hard error, yet the kernel's time has
already been overwritten, so the target is not left in its prior state
and import is not all-or-nothing. -/
theorem restore_not_all_or_nothing :
    (c3Kernel.restore c3Blob).2 = some (Err.keyError "rng")
    ∧ ((c3Kernel.restore c3Blob).1).time = 99
    ∧ c3Kernel.time = 0 := by
  exact ⟨rfl, rfl, rfl⟩

/-- C3 amended: every malformed blob (unparseable bytes, or a dict with
a missing key at any stage) raises a hard error and never silently
substitutes a default state; unparseable bytes and a missing time key
leave the kernel exactly unchanged, but a blob missing the rng key (or
whose rng dict misses the master_state key) errors only after time and
phase list have already been overwritten, so import is not
all-or-nothing per call. -/
theorem restore_error_behaviour (k : Kernel) :
    (k.restore none = (k, some Err.unpickleError))
    ∧ (∀ ps r, k.restore (some ⟨none, ps, r⟩) = (k, some (Err.keyError "time")))
    ∧ (∀ t ps, k.restore (some ⟨some t, ps, none⟩)
        = (⟨t, k.rngManager, k.entities, ps.getD k.phases, k.phaseRegs⟩,
           some (Err.keyError "rng")))
    ∧ (∀ t ps strs, k.restore (some ⟨some t, ps, some ⟨none, strs⟩⟩)
        = (⟨t, k.rngManager, k.entities, ps.getD k.phases, k.phaseRegs⟩,
           some (Err.keyError "master_state"))) := by
  refine ⟨rfl, fun ps r => rfl, fun t ps => rfl, fun t ps strs => ?_⟩
  simp [Kernel.restore, RNGManager.set_state]

theorem get_stream_of_mem (m : RNGManager) (name : String) (s : RNGStream)
    (h : lookupA m.streams name = some s) : m.get_stream name = (s, m) := by
  unfold RNGManager.get_stream
  rw [h]

theorem get_stream_mem (m : RNGManager) (name : String) :
    lookupA ((m.get_stream name).2).streams name = some (m.get_stream name).1 := by
  unfold RNGManager.get_stream
  cases h : lookupA m.streams name with
  | some s => simpa using h
  | none =>
      dsimp [RNGManager.derive_seed]
      rw [lookupA_append_of_none _ _ _ h]
      simp [lookupA]

/-- C5: the first get_stream call for a name derives and registers a
new stream, consuming exactly one master draw; every later get_stream
call for that name is a complete no-op returning the same stream and
the same manager (in particular the master position is unchanged), so
looking the name up twice and then drawing once gives exactly the same
result as looking it up once and drawing once. -/
theorem get_stream_idempotent (m : RNGManager) (name : String) :
    ((m.get_stream name).2).get_stream name = ((m.get_stream name).1, (m.get_stream name).2)
    ∧ (lookupA m.streams name = none →
        ((m.get_stream name).2).master = ((m.master.next)).2
        ∧ ((m.get_stream name).2).streams = m.streams ++ [(name, (m.get_stream name).1)])
    ∧ RNGManager.draw (((m.get_stream name).2).get_stream name).2 name
        = RNGManager.draw (m.get_stream name).2 name := by
  have h1 : ((m.get_stream name).2).get_stream name
      = ((m.get_stream name).1, (m.get_stream name).2) :=
    get_stream_of_mem _ _ _ (get_stream_mem m name)
  refine ⟨h1, ?_, by rw [h1]⟩
  intro h
  unfold RNGManager.get_stream
  rw [h]
  exact ⟨rfl, rfl⟩

theorem get_stream_idempotent_w :
    (lookupA (RNGManager.ofSeed 9).streams "s" = none)
    ∧ (((RNGManager.ofSeed 9).get_stream "s").2).get_stream "s"
        = (((RNGManager.ofSeed 9).get_stream "s").1, ((RNGManager.ofSeed 9).get_stream "s").2)
    ∧ (((RNGManager.ofSeed 9).get_stream "s").2).master = (((RNGManager.ofSeed 9).master.next)).2 :=
  ⟨rfl, (get_stream_idempotent (RNGManager.ofSeed 9) "s").1,
    ((get_stream_idempotent (RNGManager.ofSeed 9) "s").2.1 rfl).1⟩

/-- C1: two-run determinism of the whole kernel pipeline: two kernels
constructed with the same seed and phases, given the same registration
sequence and the same entity behaviours, and run for the same number
of ticks, end with identical logical time, identical per-name draw
sequences, and the identical outcome. -/
theorem two_run_determinism (S : Nat) (P : Option (List String)) (R : List RegOp)
    (env : Env) (n : Nat) (out1 out2 : SimState × Option Err)
    (h1 : out1 = pipeline S P R env n) (h2 : out2 = pipeline S P R env n) :
    (out1.1).kernel.time = (out2.1).kernel.time
    ∧ (∀ name, drawsOf name out1.1 = drawsOf name out2.1)
    ∧ out1.2 = out2.2 := by
  subst h1
  subst h2
  exact ⟨rfl, fun _ => rfl, rfl⟩

theorem runAct_time (st : SimState) (a : Act) :
    ((runAct st a).1).kernel.time = st.kernel.time := by
  cases a with
  | draw name => rfl
  | reg id h phase => simpa [runAct] using (register_frame st.kernel id h phase).1
  | unreg h => rfl
  | fail code => rfl

theorem runActs_time : ∀ (l : List Act) (st : SimState),
    ((runActs st l).1).kernel.time = st.kernel.time := by
  intro l
  induction l with
  | nil => intro st; rfl
  | cons a rest ih =>
      intro st
      have h := runAct_time st a
      unfold runActs
      cases hra : runAct st a with
      | mk st' e =>
          rw [hra] at h
          cases e with
          | none => exact (ih st').trans h
          | some err => exact h

theorem runEntity_time (env : Env) (st : SimState) (idh : String × Nat) :
    ((runEntity env st idh).1).kernel.time = st.kernel.time :=
  runActs_time (env idh.2) ⟨st.kernel, st.trace ++ [idh], st.draws⟩

theorem runMembers_time (env : Env) : ∀ (mem : List (String × Nat)) (st : SimState),
    ((runMembers env st mem).1).kernel.time = st.kernel.time := by
  intro mem
  induction mem with
  | nil => intro st; rfl
  | cons x rest ih =>
      intro st
      have h := runEntity_time env st x
      unfold runMembers
      cases hre : runEntity env st x with
      | mk st' e =>
          rw [hre] at h
          cases e with
          | none => exact (ih st').trans h
          | some err => exact h

theorem runPhases_time (env : Env) : ∀ (ps : List String) (st : SimState),
    ((runPhases env st ps).1).kernel.time = st.kernel.time := by
  intro ps
  induction ps with
  | nil => intro st; rfl
  | cons p rest ih =>
      intro st
      unfold runPhases
      cases hlk : lookupA st.kernel.phaseRegs p with
      | none => rfl
      | some mem =>
          dsimp only
          have h := runMembers_time env mem st
          cases hrm : runMembers env st mem with
          | mk st' e =>
              rw [hrm] at h
              cases e with
              | none =>
                  dsimp only
                  exact (ih st').trans h
              | some err =>
                  dsimp only
                  exact h

/-- C7: when an entity's behaviour hook raises during a tick, the
failure propagates out of step unchanged with logical time left
un-incremented; in the concrete scenario (A draws from stream sa, B
raises payload 42, C in a later phase) the surfaced error is exactly
the entity's own, the invocation log stops after B (C never runs), and
A's completed draw is left intact. -/
theorem entity_failure_propagation (env : Env) (st : SimState) (e : Err)
    (herr : (stepK env st).2 = some e) :
    ((stepK env st).1).kernel.time = st.kernel.time
    ∧ (stepK envF (initialSim kF)).2 = some (Err.entityFailure 42)
    ∧ ((stepK envF (initialSim kF)).1).trace = [("A", 1), ("B", 2)]
    ∧ (((stepK envF (initialSim kF)).1).draws).map Prod.fst = ["sa"]
    ∧ ((stepK envF (initialSim kF)).1).kernel.time = 0 := by
  refine ⟨?_, by decide, by decide, by decide, by decide⟩
  have h := runPhases_time env st.kernel.phases st
  unfold stepK at herr ⊢
  cases hrp : runPhases env st st.kernel.phases with
  | mk st' e' =>
      rw [hrp] at h herr
      cases e' with
      | none => exact absurd herr (by simp)
      | some err => exact h

theorem entity_failure_propagation_w :
    (stepK envF (initialSim kF)).2 = some (Err.entityFailure 42)
    ∧ ((stepK envF (initialSim kF)).1).kernel.time = (initialSim kF).kernel.time :=
  ⟨by decide, (entity_failure_propagation envF (initialSim kF) (Err.entityFailure 42)
      (by decide)).1⟩

theorem runActs_tame : ∀ (l : List Act), tame l = true → ∀ st : SimState,
    (runActs st l).2 = none
    ∧ ((runActs st l).1).kernel.entities = st.kernel.entities
    ∧ ((runActs st l).1).kernel.phases = st.kernel.phases
    ∧ ((runActs st l).1).kernel.phaseRegs = st.kernel.phaseRegs
    ∧ ((runActs st l).1).trace = st.trace
    ∧ ((runActs st l).1).kernel.time = st.kernel.time := by
  intro l
  induction l with
  | nil => intro _ st; exact ⟨rfl, rfl, rfl, rfl, rfl, rfl⟩
  | cons a rest ih =>
      intro hl st
      simp only [tame, List.all_cons, Bool.and_eq_true] at hl
      obtain ⟨ha, hrest⟩ := hl
      cases a with
      | draw name => exact ih hrest (runAct st (Act.draw name)).1
      | reg id h phase => exact absurd ha (by simp [actTame])
      | unreg h => exact absurd ha (by simp [actTame])
      | fail code => exact absurd ha (by simp [actTame])

theorem runEntity_tame (env : Env) (henv : ∀ h, tame (env h) = true) (st : SimState)
    (x : String × Nat) :
    (runEntity env st x).2 = none
    ∧ ((runEntity env st x).1).kernel.entities = st.kernel.entities
    ∧ ((runEntity env st x).1).kernel.phases = st.kernel.phases
    ∧ ((runEntity env st x).1).kernel.phaseRegs = st.kernel.phaseRegs
    ∧ ((runEntity env st x).1).trace = st.trace ++ [x]
    ∧ ((runEntity env st x).1).kernel.time = st.kernel.time := by
  obtain ⟨h1, h2, h3, h4, h5, h6⟩ := runActs_tame (env x.2) (henv x.2)
      ⟨st.kernel, st.trace ++ [x], st.draws⟩
  exact ⟨h1, h2, h3, h4, h5, h6⟩

theorem runMembers_tame (env : Env) (henv : ∀ h, tame (env h) = true) :
    ∀ (mem : List (String × Nat)) (st : SimState),
    (runMembers env st mem).2 = none
    ∧ ((runMembers env st mem).1).kernel.entities = st.kernel.entities
    ∧ ((runMembers env st mem).1).kernel.phases = st.kernel.phases
    ∧ ((runMembers env st mem).1).kernel.phaseRegs = st.kernel.phaseRegs
    ∧ ((runMembers env st mem).1).trace = st.trace ++ mem
    ∧ ((runMembers env st mem).1).kernel.time = st.kernel.time := by
  intro mem
  induction mem with
  | nil => intro st; exact ⟨rfl, rfl, rfl, rfl, by simp [runMembers], rfl⟩
  | cons x rest ih =>
      intro st
      obtain ⟨f1, f2, f3, f4, f5, f6⟩ := runEntity_tame env henv st x
      unfold runMembers
      cases hre : runEntity env st x with
      | mk st' e' =>
          rw [hre] at f1 f2 f3 f4 f5 f6
          dsimp only at f1 f2 f3 f4 f5 f6
          subst f1
          dsimp only
          obtain ⟨g1, g2, g3, g4, g5, g6⟩ := ih st'
          refine ⟨g1, g2.trans f2, g3.trans f3, g4.trans f4, ?_, g6.trans f6⟩
          rw [g5, f5]
          simp

theorem runPhases_tame (env : Env) (henv : ∀ h, tame (env h) = true) :
    ∀ (ps : List String) (st : SimState),
    (∀ p ∈ ps, (lookupA st.kernel.phaseRegs p).isSome = true) →
    (runPhases env st ps).2 = none
    ∧ ((runPhases env st ps).1).kernel.entities = st.kernel.entities
    ∧ ((runPhases env st ps).1).kernel.phases = st.kernel.phases
    ∧ ((runPhases env st ps).1).kernel.phaseRegs = st.kernel.phaseRegs
    ∧ ((runPhases env st ps).1).trace
        = st.trace ++ ps.flatMap (fun q => (lookupA st.kernel.phaseRegs q).getD [])
    ∧ ((runPhases env st ps).1).kernel.time = st.kernel.time := by
  intro ps
  induction ps with
  | nil => intro st _; exact ⟨rfl, rfl, rfl, rfl, by simp [runPhases], rfl⟩
  | cons p rest ih =>
      intro st hps
      have hp := hps p (by simp)
      obtain ⟨mem, hmem⟩ := Option.isSome_iff_exists.mp hp
      unfold runPhases
      rw [hmem]
      dsimp only
      obtain ⟨f1, f2, f3, f4, f5, f6⟩ := runMembers_tame env henv mem st
      cases hrm : runMembers env st mem with
      | mk st' e' =>
          rw [hrm] at f1 f2 f3 f4 f5 f6
          dsimp only at f1 f2 f3 f4 f5 f6
          subst f1
          dsimp only
          obtain ⟨g1, g2, g3, g4, g5, g6⟩ := ih st'
              (by intro q hq; rw [f4]; exact hps q (List.mem_cons_of_mem _ hq))
          refine ⟨g1, g2.trans f2, g3.trans f3, g4.trans f4, ?_, g6.trans f6⟩
          rw [g5, f4, f5]
          simp [hmem]

theorem stepK_tame (env : Env) (henv : ∀ h, tame (env h) = true) (st : SimState)
    (hok : ∀ p ∈ st.kernel.phases, (lookupA st.kernel.phaseRegs p).isSome = true) :
    (stepK env st).2 = none
    ∧ ((stepK env st).1).kernel.entities = st.kernel.entities
    ∧ ((stepK env st).1).kernel.phases = st.kernel.phases
    ∧ ((stepK env st).1).kernel.phaseRegs = st.kernel.phaseRegs
    ∧ ((stepK env st).1).trace
        = st.trace ++ st.kernel.phases.flatMap (fun q => (lookupA st.kernel.phaseRegs q).getD [])
    ∧ ((stepK env st).1).kernel.time = st.kernel.time + 1 := by
  obtain ⟨f1, f2, f3, f4, f5, f6⟩ := runPhases_tame env henv st.kernel.phases st hok
  unfold stepK
  cases hrp : runPhases env st st.kernel.phases with
  | mk st' e' =>
      rw [hrp] at f1 f2 f3 f4 f5 f6
      dsimp only at f1 f2 f3 f4 f5 f6
      subst f1
      dsimp only
      exact ⟨rfl, f2, f3, f4, f5, by rw [f6]⟩

theorem runN_tame (env : Env) (henv : ∀ h, tame (env h) = true) :
    ∀ (n : Nat) (st : SimState),
    (∀ p ∈ st.kernel.phases, (lookupA st.kernel.phaseRegs p).isSome = true) →
    (runN env n st).2 = none
    ∧ ((runN env n st).1).kernel.time = st.kernel.time + n
    ∧ ((runN env n st).1).kernel.entities = st.kernel.entities
    ∧ ((runN env n st).1).kernel.phases = st.kernel.phases
    ∧ ((runN env n st).1).kernel.phaseRegs = st.kernel.phaseRegs := by
  intro n
  induction n with
  | zero => intro st _; exact ⟨rfl, rfl, rfl, rfl, rfl⟩
  | succ n ih =>
      intro st hok
      obtain ⟨f1, f2, f3, f4, f5, f6⟩ := stepK_tame env henv st hok
      unfold runN
      cases hsk : stepK env st with
      | mk st' e' =>
          rw [hsk] at f1 f2 f3 f4 f5 f6
          dsimp only at f1 f2 f3 f4 f5 f6
          subst f1
          dsimp only
          obtain ⟨g1, g2, g3, g4, g5⟩ := ih st'
              (by intro q hq; rw [f4]; exact hok q (by rwa [f3] at hq))
          refine ⟨g1, ?_, g3.trans f2, g4.trans f3, g5.trans f4⟩
          rw [g2, f6]
          omega

/-- C6: one tick invokes exactly the registered entities, phase by
phase in declared phase-list order and in registration order within
each phase — the invocation log is the in-order concatenation of the
per-phase registration lists, each read at its phase's start (concrete
scenario: an entity that registers handle 2 into its own
already-started phase and handle 3 into a later phase sees 3 invoked
in the same tick but not 2); a completed tick increments logical time
by exactly 1; run(n) performs exactly n such ticks, and run(0) is a
no-op. -/
theorem tick_phase_order (env : Env) (k : Kernel) (n : Nat)
    (henv : ∀ h, tame (env h) = true)
    (hok : ∀ p ∈ k.phases, (lookupA k.phaseRegs p).isSome = true) :
    (stepK env (initialSim k)).2 = none
    ∧ ((stepK env (initialSim k)).1).trace
        = k.phases.flatMap (fun q => (lookupA k.phaseRegs q).getD [])
    ∧ ((stepK env (initialSim k)).1).kernel.time = k.time + 1
    ∧ (runN env n (initialSim k)).2 = none
    ∧ ((runN env n (initialSim k)).1).kernel.time = k.time + n
    ∧ runN env 0 (initialSim k) = (initialSim k, none)
    ∧ ((stepK envNop (initialSim kBA)).1).trace = [("B", 2), ("A", 1)]
    ∧ ((stepK envMut (initialSim kMut)).1).trace = [("A", 1), ("Y", 3)] := by
  obtain ⟨f1, f2, f3, f4, f5, f6⟩ := stepK_tame env henv (initialSim k) hok
  obtain ⟨g1, g2, g3, g4, g5⟩ := runN_tame env henv n (initialSim k) hok
  exact ⟨f1, by simpa using f5, f6, g1, g2, rfl, by decide, by decide⟩

theorem tick_phase_order_w :
    (∀ h : Nat, tame (envNop h) = true)
    ∧ (∀ p ∈ kBA.phases, (lookupA kBA.phaseRegs p).isSome = true)
    ∧ (stepK envNop (initialSim kBA)).2 = none
    ∧ ((runN envNop 2 (initialSim kBA)).1).kernel.time = kBA.time + 2 :=
  ⟨fun _ => rfl, by decide,
    (tick_phase_order envNop kBA 2 (fun _ => rfl) (by decide)).1,
    (tick_phase_order envNop kBA 2 (fun _ => rfl) (by decide)).2.2.2.2.1⟩

theorem importStream_master : ∀ (m : RNGManager) (ns : String × PRNG),
    (importStream m ns).master = m.master
    ∧ (importStream m ns).master_seed = m.master_seed := by
  intro m ns
  unfold importStream
  cases lookupA m.streams ns.1 <;> exact ⟨rfl, rfl⟩

theorem importStream_fold_master : ∀ (strs : List (String × PRNG)) (m : RNGManager),
    (strs.foldl importStream m).master = m.master
    ∧ (strs.foldl importStream m).master_seed = m.master_seed := by
  intro strs
  induction strs with
  | nil => intro m; exact ⟨rfl, rfl⟩
  | cons ns rest ih =>
      intro m
      rw [List.foldl_cons]
      obtain ⟨h1, h2⟩ := ih (importStream m ns)
      obtain ⟨g1, g2⟩ := importStream_master m ns
      exact ⟨h1.trans g1, h2.trans g2⟩

theorem importStream_fold_lookup : ∀ (strs : List (String × PRNG)) (name : String),
    lookupA strs name = none → ∀ (m : RNGManager),
    lookupA (strs.foldl importStream m).streams name = lookupA m.streams name := by
  intro strs
  induction strs with
  | nil => intro name _ m; rfl
  | cons ns rest ih =>
      intro name h m
      obtain ⟨n1, st1⟩ := ns
      by_cases he : n1 = name
      · subst he
        rw [lookupA_cons_eq] at h
        exact absurd h (by simp)
      · rw [lookupA_cons_ne _ _ _ _ he] at h
        rw [List.foldl_cons, ih name h]
        unfold importStream
        cases hlk : lookupA m.streams n1 with
        | some s =>
            dsimp only
            exact lookupA_updateA_ne _ _ _ _ (fun hh => he hh.symm)
        | none =>
            dsimp only
            refine lookupA_append_right_none _ _ _ ?_
            rw [lookupA_cons_ne _ _ _ _ he]
            rfl

/-- C9: restoring a well-formed snapshot blob succeeds and overwrites
exactly the logical time, the phase list, and the stream-manager state
(master included); the entity registry — global list and per-phase
lists — is untouched, and any stream name present in the manager but
absent from the imported state keeps exactly the position it had
before the call. -/
theorem restore_frame_exact (k : Kernel) (t : Nat) (ps : List String) (mst : PRNG)
    (strs : List (String × PRNG)) :
    (k.restore (some ⟨some t, some ps, some ⟨some mst, some strs⟩⟩)).2 = none
    ∧ ((k.restore (some ⟨some t, some ps, some ⟨some mst, some strs⟩⟩)).1).time = t
    ∧ ((k.restore (some ⟨some t, some ps, some ⟨some mst, some strs⟩⟩)).1).phases = ps
    ∧ ((k.restore (some ⟨some t, some ps, some ⟨some mst, some strs⟩⟩)).1).entities = k.entities
    ∧ ((k.restore (some ⟨some t, some ps, some ⟨some mst, some strs⟩⟩)).1).phaseRegs = k.phaseRegs
    ∧ (((k.restore (some ⟨some t, some ps, some ⟨some mst, some strs⟩⟩)).1).rngManager).master = mst
    ∧ (∀ name, lookupA strs name = none →
        lookupA ((((k.restore
            (some ⟨some t, some ps, some ⟨some mst, some strs⟩⟩)).1).rngManager).streams) name
          = lookupA k.rngManager.streams name) := by
  refine ⟨rfl, rfl, rfl, rfl, rfl, ?_, ?_⟩
  · show (strs.foldl importStream
        ⟨k.rngManager.master_seed, mst, k.rngManager.streams⟩).master = mst
    exact (importStream_fold_master strs _).1
  · intro name h
    show lookupA (strs.foldl importStream
        ⟨k.rngManager.master_seed, mst, k.rngManager.streams⟩).streams name
      = lookupA k.rngManager.streams name
    exact importStream_fold_lookup strs name h _

theorem restore_frame_exact_w :
    (lookupA ([("a", PRNG.ofSeed 3)] : List (String × PRNG)) "z" = none)
    ∧ lookupA ((((kF.restore (some ⟨some 5, some ["p"],
          some ⟨some (PRNG.ofSeed 2), some [("a", PRNG.ofSeed 3)]⟩⟩)).1).rngManager).streams) "z"
        = lookupA kF.rngManager.streams "z"
    ∧ ((kF.restore (some ⟨some 5, some ["p"],
          some ⟨some (PRNG.ofSeed 2), some [("a", PRNG.ofSeed 3)]⟩⟩)).1).entities = kF.entities :=
  ⟨by decide,
   (restore_frame_exact kF 5 ["p"] (PRNG.ofSeed 2) [("a", PRNG.ofSeed 3)]).2.2.2.2.2.2 "z"
     (by decide),
   (restore_frame_exact kF 5 ["p"] (PRNG.ofSeed 2) [("a", PRNG.ofSeed 3)]).2.2.2.1⟩

/-- C8 counterexample: under the declared phase list ["x","x"] (a name
repeated), registering handle 7 twice leaves exactly one registry
entry — the second registration is a silent no-op — yet a single tick
invokes the handle twice, because step iterates the repeated phase
name twice over the same registration list; so "invoked exactly once
per tick, never twice" is false for this kernel. -/
theorem dup_register_double_invocation :
    c8Reg2 = (c8Reg1, none)
    ∧ (c8Reg2.1).entities = [("a", 7)]
    ∧ ((((stepK envNop (initialSim c8Reg2.1)).1).trace.map Prod.snd).count 7) = 2 :=
  ⟨by decide, by decide, by decide⟩

theorem lookupA_isSome_of_mem {α : Type} : ∀ (l : List (String × α)) (k : String),
    k ∈ l.map Prod.fst → (lookupA l k).isSome = true := by
  intro l
  induction l with
  | nil => intro k h; simp at h
  | cons x rest ih =>
      intro k h
      obtain ⟨q, v⟩ := x
      by_cases hq : q = k
      · subst hq
        rw [lookupA_cons_eq]
        rfl
      · rw [lookupA_cons_ne _ _ _ _ hq]
        apply ih
        simp only [List.map_cons, List.mem_cons] at h
        rcases h with h | h
        · exact absurd h.symm hq
        · exact h

theorem regInv_init (S : Nat) (P : Option (List String)) : RegInv (Kernel.init S P) := by
  have hflat : ∀ ps : List String,
      (ps.map (fun p => (p, ([] : List (String × Nat))))).flatMap (fun pr => pr.2) = [] := by
    intro ps
    induction ps with
    | nil => rfl
    | cons a t iht => simp [iht]
  have hkeysmap : ∀ ps : List String,
      (ps.map (fun p => (p, ([] : List (String × Nat))))).map Prod.fst = ps := by
    intro ps
    induction ps with
    | nil => rfl
    | cons a t iht => simp [iht]
  have h : ∀ ps : List String,
      RegInv ⟨0, RNGManager.ofSeed S, [], ps, ps.map (fun p => (p, []))⟩ := by
    intro ps
    have hempty : (allRegs ⟨0, RNGManager.ofSeed S, [], ps, ps.map (fun p => (p, []))⟩) = [] :=
      hflat ps
    refine ⟨hkeysmap ps, ?_, ?_⟩
    · simp [hempty]
    · intro e he
      rw [hempty] at he
      simp at he
  cases P with
  | none => exact h defaultPhases
  | some l =>
      cases l with
      | nil => exact h defaultPhases
      | cons a rest => exact h (a :: rest)

theorem flatMap_updateA {γ : Type} :
    ∀ (regs : List (String × List γ)) (p : String) (lst v : List γ),
    lookupA regs p = some lst →
    ∃ A B, regs.flatMap (fun pr => pr.2) = A ++ (lst ++ B)
      ∧ (updateA regs p v).flatMap (fun pr => pr.2) = A ++ (v ++ B) := by
  intro regs
  induction regs with
  | nil => intro p lst v h; simp [lookupA] at h
  | cons x rest ih =>
      intro p lst v h
      obtain ⟨q, l⟩ := x
      by_cases hq : q = p
      · subst hq
        rw [lookupA_cons_eq] at h
        injection h with h
        subst h
        refine ⟨[], rest.flatMap (fun pr => pr.2), by simp, ?_⟩
        rw [updateA_cons_eq]
        simp
      · rw [lookupA_cons_ne _ _ _ _ hq] at h
        obtain ⟨A, B, h1, h2⟩ := ih p lst v h
        refine ⟨l ++ A, B, ?_, ?_⟩
        · rw [List.flatMap_cons, h1]
          simp
        · rw [updateA_cons_ne _ _ _ _ _ hq, List.flatMap_cons, h2]
          simp

theorem regInv_register (k : Kernel) (hk : RegInv k) (id : String) (ent : Nat)
    (p : Option String) : RegInv ((k.register id ent p).1) := by
  obtain ⟨hkeys, hnd, hsub⟩ := hk
  unfold Kernel.register
  cases hq : (match p with | some q => some q | none => k.phases.head?) with
  | none => exact ⟨hkeys, hnd, hsub⟩
  | some q =>
      dsimp only
      by_cases hqin : q ∈ k.phases
      · simp only [if_pos hqin]
        by_cases hdup : k.entities.any (fun ie => ie.2 == ent) = true
        · simp only [hdup, if_true]
          exact ⟨hkeys, hnd, hsub⟩
        · simp only [Bool.not_eq_true] at hdup
          simp only [hdup, Bool.false_eq_true, if_false]
          have hent_notin : ent ∉ k.entities.map Prod.snd := by
            intro hmem
            rw [List.mem_map] at hmem
            obtain ⟨x, hx, hx2⟩ := hmem
            have : k.entities.any (fun ie => ie.2 == ent) = true := by
              rw [List.any_eq_true]
              exact ⟨x, hx, by simp [hx2]⟩
            rw [hdup] at this
            exact absurd this (by simp)
          cases hlk : lookupA k.phaseRegs q with
          | none =>
              dsimp only
              refine ⟨hkeys, hnd, ?_⟩
              intro e he
              have := hsub e he
              simp only [List.map_append, List.mem_append]
              exact Or.inl this
          | some lst =>
              dsimp only
              obtain ⟨A, B, h1, h2⟩ :=
                flatMap_updateA k.phaseRegs q lst (lst ++ [(id, ent)]) hlk
              have e1 : ((A ++ ((lst ++ [(id, ent)]) ++ B)).map Prod.snd)
                  = (A.map Prod.snd ++ lst.map Prod.snd) ++ ent :: B.map Prod.snd := by
                simp
              have e2 : ((A ++ (lst ++ B)).map Prod.snd)
                  = (A.map Prod.snd ++ lst.map Prod.snd) ++ B.map Prod.snd := by
                simp
              have hold : (allRegs k).map Prod.snd
                  = (A.map Prod.snd ++ lst.map Prod.snd) ++ B.map Prod.snd := by
                rw [allRegs, h1, e2]
              have hnew : (allRegs ⟨k.time, k.rngManager, k.entities ++ [(id, ent)], k.phases,
                    updateA k.phaseRegs q (lst ++ [(id, ent)])⟩).map Prod.snd
                  = (A.map Prod.snd ++ lst.map Prod.snd) ++ ent :: B.map Prod.snd := by
                rw [allRegs]
                dsimp only
                rw [h2, e1]
              have hperm : ((A.map Prod.snd ++ lst.map Prod.snd) ++ ent :: B.map Prod.snd).Perm
                  (ent :: ((A.map Prod.snd ++ lst.map Prod.snd) ++ B.map Prod.snd)) :=
                List.perm_middle
              refine ⟨?_, ?_, ?_⟩
              · dsimp only
                rw [keys_updateA_of_mem _ _ _ _ hlk]
                exact hkeys
              · rw [hnew]
                refine hperm.symm.nodup ?_
                rw [List.nodup_cons]
                constructor
                · rw [← hold]
                  intro hmem
                  exact hent_notin (hsub ent hmem)
                · rw [← hold]
                  exact hnd
              · intro e he
                rw [hnew, List.mem_append] at he
                rcases he with he | he
                · have hin : e ∈ (allRegs k).map Prod.snd := by
                    rw [hold, List.mem_append]
                    exact Or.inl he
                  have := hsub e hin
                  simp only [List.map_append, List.mem_append]
                  exact Or.inl this
                · rw [List.mem_cons] at he
                  rcases he with he | he
                  · subst he
                    simp
                  · have hin : e ∈ (allRegs k).map Prod.snd := by
                      rw [hold, List.mem_append]
                      exact Or.inr he
                    have := hsub e hin
                    simp only [List.map_append, List.mem_append]
                    exact Or.inl this
      · simp only [if_neg hqin]
        exact ⟨hkeys, hnd, hsub⟩

theorem regInv_applyRegs : ∀ (R : List RegOp) (k : Kernel),
    RegInv k → RegInv ((applyRegs k R).1) := by
  intro R
  induction R with
  | nil => intro k hk; exact hk
  | cons r rest ih =>
      intro k hk
      have h := regInv_register k hk r.id r.ent r.phase
      unfold applyRegs
      cases hr : k.register r.id r.ent r.phase with
      | mk k' e =>
          rw [hr] at h
          dsimp only at h
          cases e with
          | none => exact ih k' h
          | some err => exact h

theorem applyRegs_frame : ∀ (R : List RegOp) (k : Kernel),
    ((applyRegs k R).1).phases = k.phases
    ∧ ((applyRegs k R).1).rngManager = k.rngManager
    ∧ ((applyRegs k R).1).time = k.time := by
  intro R
  induction R with
  | nil => intro k; exact ⟨rfl, rfl, rfl⟩
  | cons r rest ih =>
      intro k
      obtain ⟨f1, f2, f3⟩ := register_frame k r.id r.ent r.phase
      unfold applyRegs
      cases hr : k.register r.id r.ent r.phase with
      | mk k' e =>
          rw [hr] at f1 f2 f3
          dsimp only at f1 f2 f3
          cases e with
          | none =>
              obtain ⟨g1, g2, g3⟩ := ih k'
              exact ⟨g1.trans f3, g2.trans f2, g3.trans f1⟩
          | some err => exact ⟨f3, f2, f1⟩

theorem flatMap_lookup_keys {γ : Type} : ∀ (regs : List (String × List γ)) (ks : List String),
    regs.map Prod.fst = ks → ks.Nodup →
    ks.flatMap (fun p => (lookupA regs p).getD []) = regs.flatMap (fun pr => pr.2) := by
  intro regs
  induction regs with
  | nil =>
      intro ks hk _
      simp only [List.map_nil] at hk
      subst hk
      rfl
  | cons x rest ih =>
      intro ks hk hnd
      obtain ⟨q, l⟩ := x
      simp only [List.map_cons] at hk
      subst hk
      simp only [List.nodup_cons] at hnd
      rw [List.flatMap_cons, List.flatMap_cons]
      have hcongr : ∀ p ∈ rest.map Prod.fst,
          (lookupA ((q, l) :: rest) p).getD [] = (lookupA rest p).getD [] := by
        intro p hp
        rw [lookupA_cons_ne _ _ _ _ (fun hqp => hnd.1 (by rw [hqp]; exact hp))]
      rw [List.flatMap_congr hcongr, ih _ rfl hnd.2, lookupA_cons_eq]
      rfl

/-- C8 amended: registering an already-registered handle again (any id
string, any valid phase) is a silent no-op leaving the registry
exactly as after the first registration; and provided the declared
phase list has no duplicate names, a kernel whose registry was built
by register calls invokes every handle at most once per tick, and
every registered handle exactly once per tick. -/
theorem dup_register_once_per_tick (S : Nat) (P : Option (List String)) (R : List RegOp)
    (env : Env) (henv : ∀ h, tame (env h) = true)
    (hnd : (Kernel.init S P).phases.Nodup)
    (id' : String) (ent : Nat) (q : String)
    (hq : q ∈ ((applyRegs (Kernel.init S P) R).1).phases)
    (hdup : ((applyRegs (Kernel.init S P) R).1).entities.any (fun ie => ie.2 == ent) = true) :
    ((applyRegs (Kernel.init S P) R).1).register id' ent (some q)
        = ((applyRegs (Kernel.init S P) R).1, none)
    ∧ (∀ e : Nat,
        (((stepK env (initialSim ((applyRegs (Kernel.init S P) R).1))).1).trace.map
          Prod.snd).count e ≤ 1)
    ∧ (ent ∈ (allRegs ((applyRegs (Kernel.init S P) R).1)).map Prod.snd →
        (((stepK env (initialSim ((applyRegs (Kernel.init S P) R).1))).1).trace.map
          Prod.snd).count ent = 1) := by
  obtain ⟨hInvKeys, hInvNd, _⟩ := regInv_applyRegs R (Kernel.init S P) (regInv_init S P)
  have hphases : ((applyRegs (Kernel.init S P) R).1).phases = (Kernel.init S P).phases :=
    (applyRegs_frame R (Kernel.init S P)).1
  have hndk : ((applyRegs (Kernel.init S P) R).1).phases.Nodup := by
    rw [hphases]
    exact hnd
  have hok : ∀ p ∈ ((applyRegs (Kernel.init S P) R).1).phases,
      (lookupA ((applyRegs (Kernel.init S P) R).1).phaseRegs p).isSome = true := by
    intro p hp
    apply lookupA_isSome_of_mem
    rw [hInvKeys]
    exact hp
  obtain ⟨f1, f2, f3, f4, f5, f6⟩ :=
    stepK_tame env henv (initialSim ((applyRegs (Kernel.init S P) R).1)) hok
  have htrace : (((stepK env (initialSim ((applyRegs (Kernel.init S P) R).1))).1).trace)
      = allRegs ((applyRegs (Kernel.init S P) R).1) := by
    rw [f5]
    simp only [initialSim, List.nil_append]
    exact flatMap_lookup_keys _ _ hInvKeys hndk
  refine ⟨by simp [Kernel.register, hq, hdup], ?_, ?_⟩
  · intro e
    rw [htrace]
    exact List.nodup_iff_count_le_one.mp hInvNd e
  · intro hmem
    rw [htrace]
    exact List.count_eq_one_of_mem hInvNd hmem

theorem dup_register_once_per_tick_w :
    (∀ h : Nat, tame (envNop h) = true)
    ∧ ((Kernel.init 0 (some ["p", "q"])).phases.Nodup)
    ∧ ("p" ∈ ((applyRegs (Kernel.init 0 (some ["p", "q"])) [⟨"a", 7, some "p"⟩]).1).phases)
    ∧ (((applyRegs (Kernel.init 0 (some ["p", "q"])) [⟨"a", 7, some "p"⟩]).1).entities.any
        (fun ie => ie.2 == 7) = true)
    ∧ ((applyRegs (Kernel.init 0 (some ["p", "q"])) [⟨"a", 7, some "p"⟩]).1).register "b" 7
          (some "p")
        = ((applyRegs (Kernel.init 0 (some ["p", "q"])) [⟨"a", 7, some "p"⟩]).1, none)
    ∧ (((stepK envNop (initialSim ((applyRegs (Kernel.init 0 (some ["p", "q"]))
          [⟨"a", 7, some "p"⟩]).1))).1).trace.map Prod.snd).count 7 = 1 :=
  ⟨fun _ => rfl, by decide, by decide, by decide,
   (dup_register_once_per_tick 0 (some ["p", "q"]) [⟨"a", 7, some "p"⟩] envNop (fun _ => rfl)
     (by decide) "b" 7 "p" (by decide) (by decide)).1,
   (dup_register_once_per_tick 0 (some ["p", "q"]) [⟨"a", 7, some "p"⟩] envNop (fun _ => rfl)
     (by decide) "b" 7 "p" (by decide) (by decide)).2.2 (by decide)⟩

theorem two_run_determinism_w :
    ((pipeline 5 none [⟨"A", 1, none⟩] envDrawS 2).1).kernel.time
        = ((pipeline 5 none [⟨"A", 1, none⟩] envDrawS 2).1).kernel.time
    ∧ (∀ name, drawsOf name (pipeline 5 none [⟨"A", 1, none⟩] envDrawS 2).1
        = drawsOf name (pipeline 5 none [⟨"A", 1, none⟩] envDrawS 2).1)
    ∧ (pipeline 5 none [⟨"A", 1, none⟩] envDrawS 2).2
        = (pipeline 5 none [⟨"A", 1, none⟩] envDrawS 2).2 :=
  two_run_determinism 5 none [⟨"A", 1, none⟩] envDrawS 2 _ _ rfl rfl

theorem lookupA_rng_of_MEq (m1 m2 : RNGManager) (h : MEq m1 m2) (name : String) :
    (lookupA m1.streams name).map RNGStream.rng
      = (lookupA m2.streams name).map RNGStream.rng := by
  rw [← lookupA_map m1.streams RNGStream.rng name, ← lookupA_map m2.streams RNGStream.rng name,
    h.streams]

theorem get_stream_cong (m1 m2 : RNGManager) (h : MEq m1 m2) (name : String) :
    ((m1.get_stream name).1).rng = ((m2.get_stream name).1).rng
    ∧ MEq (m1.get_stream name).2 (m2.get_stream name).2 := by
  have hl := lookupA_rng_of_MEq m1 m2 h name
  unfold RNGManager.get_stream
  cases h1 : lookupA m1.streams name with
  | some s1 =>
      cases h2 : lookupA m2.streams name with
      | none =>
          rw [h1, h2] at hl
          exact absurd hl (by simp)
      | some s2 =>
          rw [h1, h2] at hl
          simp only [Option.map_some'] at hl
          injection hl with hl
          exact ⟨hl, h⟩
  | none =>
      cases h2 : lookupA m2.streams name with
      | some s2 =>
          rw [h1, h2] at hl
          exact absurd hl (by simp)
      | none =>
          dsimp only [RNGManager.derive_seed]
          rw [h.master]
          refine ⟨rfl, ?_, ?_⟩
          · rfl
          · simp only [List.map_append, h.streams]

theorem draw_cong (m1 m2 : RNGManager) (h : MEq m1 m2) (name : String) :
    (m1.draw name).1 = (m2.draw name).1 ∧ MEq (m1.draw name).2 (m2.draw name).2 := by
  obtain ⟨h1, h2⟩ := get_stream_cong m1 m2 h name
  unfold RNGManager.draw
  dsimp only
  constructor
  · show (((m1.get_stream name).1).next).1 = (((m2.get_stream name).1).next).1
    show (((m1.get_stream name).1).rng.next).1 = (((m2.get_stream name).1).rng.next).1
    rw [h1]
  · refine ⟨h2.master, ?_⟩
    have hv : RNGStream.rng (((m1.get_stream name).1).next).2
        = RNGStream.rng (((m2.get_stream name).1).next).2 := by
      show (((m1.get_stream name).1).rng.next).2 = (((m2.get_stream name).1).rng.next).2
      rw [h1]
    rw [← updateA_map ((m1.get_stream name).2).streams RNGStream.rng name
        (((m1.get_stream name).1).next).2,
      ← updateA_map ((m2.get_stream name).2).streams RNGStream.rng name
        (((m2.get_stream name).1).next).2,
      h2.streams, hv]

theorem register_cong (k1 k2 : Kernel) (h : KEq k1 k2) (id : String) (ent : Nat)
    (p : Option String) :
    KEq ((k1.register id ent p)).1 ((k2.register id ent p)).1
    ∧ (k1.register id ent p).2 = (k2.register id ent p).2 := by
  obtain ⟨ht, he, hp, hr, hm⟩ := h
  cases k1 with
  | mk t1 m1 es1 ps1 regs1 =>
      cases k2 with
      | mk t2 m2 es2 ps2 regs2 =>
          replace ht : t1 = t2 := ht
          replace he : es1 = es2 := he
          replace hp : ps1 = ps2 := hp
          replace hr : regs1 = regs2 := hr
          subst ht
          subst he
          subst hp
          subst hr
          rw [register_mk t1 m1 es1 ps1 regs1 id ent p, register_mk t1 m2 es1 ps1 regs1 id ent p]
          exact ⟨⟨rfl, rfl, rfl, rfl, hm⟩, rfl⟩

theorem unregister_cong (k1 k2 : Kernel) (h : KEq k1 k2) (ent : Nat) :
    KEq (k1.unregister ent) (k2.unregister ent) := by
  obtain ⟨ht, he, hp, hr, hm⟩ := h
  cases k1 with
  | mk t1 m1 es1 ps1 regs1 =>
      cases k2 with
      | mk t2 m2 es2 ps2 regs2 =>
          replace ht : t1 = t2 := ht
          replace he : es1 = es2 := he
          replace hp : ps1 = ps2 := hp
          replace hr : regs1 = regs2 := hr
          subst ht
          subst he
          subst hp
          subst hr
          exact ⟨rfl, rfl, rfl, rfl, hm⟩

theorem runAct_cong (s1 s2 : SimState) (h : SEq s1 s2) (a : Act) :
    SEq (runAct s1 a).1 (runAct s2 a).1 ∧ (runAct s1 a).2 = (runAct s2 a).2 := by
  obtain ⟨hk, htr, hdr⟩ := h
  cases a with
  | draw name =>
      obtain ⟨hv, hm⟩ := draw_cong s1.kernel.rngManager s2.kernel.rngManager hk.rng name
      refine ⟨⟨⟨hk.time, hk.entities, hk.phases, hk.phaseRegs, hm⟩, htr, ?_⟩, rfl⟩
      show s1.draws ++ [(name, (s1.kernel.rngManager.draw name).1)]
          = s2.draws ++ [(name, (s2.kernel.rngManager.draw name).1)]
      rw [hdr, hv]
  | reg id hh phase =>
      obtain ⟨hkr, herr⟩ := register_cong s1.kernel s2.kernel hk id hh phase
      exact ⟨⟨hkr, htr, hdr⟩, herr⟩
  | unreg hh => exact ⟨⟨unregister_cong s1.kernel s2.kernel hk hh, htr, hdr⟩, rfl⟩
  | fail code => exact ⟨⟨hk, htr, hdr⟩, rfl⟩

theorem runActs_cong : ∀ (l : List Act) (s1 s2 : SimState), SEq s1 s2 →
    SEq (runActs s1 l).1 (runActs s2 l).1 ∧ (runActs s1 l).2 = (runActs s2 l).2 := by
  intro l
  induction l with
  | nil => intro s1 s2 h; exact ⟨h, rfl⟩
  | cons a rest ih =>
      intro s1 s2 h
      obtain ⟨h1, h2⟩ := runAct_cong s1 s2 h a
      unfold runActs
      cases hr1 : runAct s1 a with
      | mk st1 e1 =>
          cases hr2 : runAct s2 a with
          | mk st2 e2 =>
              rw [hr1, hr2] at h1 h2
              dsimp only at h1 h2
              subst h2
              cases e1 with
              | none => exact ih st1 st2 h1
              | some err => exact ⟨h1, rfl⟩

theorem runEntity_cong (env : Env) (s1 s2 : SimState) (h : SEq s1 s2) (x : String × Nat) :
    SEq (runEntity env s1 x).1 (runEntity env s2 x).1
    ∧ (runEntity env s1 x).2 = (runEntity env s2 x).2 :=
  runActs_cong (env x.2) ⟨s1.kernel, s1.trace ++ [x], s1.draws⟩
    ⟨s2.kernel, s2.trace ++ [x], s2.draws⟩ ⟨h.kernel, by rw [h.trace], h.draws⟩

theorem runMembers_cong (env : Env) : ∀ (mem : List (String × Nat)) (s1 s2 : SimState),
    SEq s1 s2 →
    SEq (runMembers env s1 mem).1 (runMembers env s2 mem).1
    ∧ (runMembers env s1 mem).2 = (runMembers env s2 mem).2 := by
  intro mem
  induction mem with
  | nil => intro s1 s2 h; exact ⟨h, rfl⟩
  | cons x rest ih =>
      intro s1 s2 h
      obtain ⟨h1, h2⟩ := runEntity_cong env s1 s2 h x
      unfold runMembers
      cases hr1 : runEntity env s1 x with
      | mk st1 e1 =>
          cases hr2 : runEntity env s2 x with
          | mk st2 e2 =>
              rw [hr1, hr2] at h1 h2
              dsimp only at h1 h2
              subst h2
              cases e1 with
              | none => exact ih st1 st2 h1
              | some err => exact ⟨h1, rfl⟩

theorem runPhases_cong (env : Env) : ∀ (ps : List String) (s1 s2 : SimState), SEq s1 s2 →
    SEq (runPhases env s1 ps).1 (runPhases env s2 ps).1
    ∧ (runPhases env s1 ps).2 = (runPhases env s2 ps).2 := by
  intro ps
  induction ps with
  | nil => intro s1 s2 h; exact ⟨h, rfl⟩
  | cons p rest ih =>
      intro s1 s2 h
      unfold runPhases
      have hreg : lookupA s1.kernel.phaseRegs p = lookupA s2.kernel.phaseRegs p := by
        rw [h.kernel.phaseRegs]
      cases hlk : lookupA s2.kernel.phaseRegs p with
      | none =>
          rw [hreg, hlk]
          exact ⟨h, rfl⟩
      | some mem =>
          rw [hreg, hlk]
          dsimp only
          obtain ⟨h1, h2⟩ := runMembers_cong env mem s1 s2 h
          cases hr1 : runMembers env s1 mem with
          | mk st1 e1 =>
              cases hr2 : runMembers env s2 mem with
              | mk st2 e2 =>
                  rw [hr1, hr2] at h1 h2
                  dsimp only at h1 h2
                  subst h2
                  cases e1 with
                  | none => exact ih st1 st2 h1
                  | some err => exact ⟨h1, rfl⟩

theorem stepK_cong (env : Env) (s1 s2 : SimState) (h : SEq s1 s2) :
    SEq (stepK env s1).1 (stepK env s2).1 ∧ (stepK env s1).2 = (stepK env s2).2 := by
  unfold stepK
  have hps : s1.kernel.phases = s2.kernel.phases := h.kernel.phases
  rw [hps]
  obtain ⟨h1, h2⟩ := runPhases_cong env s2.kernel.phases s1 s2 h
  cases hr1 : runPhases env s1 s2.kernel.phases with
  | mk st1 e1 =>
      cases hr2 : runPhases env s2 s2.kernel.phases with
      | mk st2 e2 =>
          rw [hr1, hr2] at h1 h2
          dsimp only at h1 h2
          subst h2
          cases e1 with
          | none =>
              refine ⟨⟨⟨?_, h1.kernel.entities, h1.kernel.phases, h1.kernel.phaseRegs,
                h1.kernel.rng⟩, h1.trace, h1.draws⟩, rfl⟩
              show st1.kernel.time + 1 = st2.kernel.time + 1
              rw [h1.kernel.time]
          | some err => exact ⟨h1, rfl⟩

theorem runN_cong (env : Env) : ∀ (n : Nat) (s1 s2 : SimState), SEq s1 s2 →
    SEq (runN env n s1).1 (runN env n s2).1 ∧ (runN env n s1).2 = (runN env n s2).2 := by
  intro n
  induction n with
  | zero => intro s1 s2 h; exact ⟨h, rfl⟩
  | succ n ih =>
      intro s1 s2 h
      obtain ⟨h1, h2⟩ := stepK_cong env s1 s2 h
      unfold runN
      cases hr1 : stepK env s1 with
      | mk st1 e1 =>
          cases hr2 : stepK env s2 with
          | mk st2 e2 =>
              rw [hr1, hr2] at h1 h2
              dsimp only at h1 h2
              subst h2
              cases e1 with
              | none => exact ih st1 st2 h1
              | some err => exact ⟨h1, rfl⟩

theorem runAct_regFree (st : SimState) (a : Act) (ha : actRegFree a = true) :
    ((runAct st a).1).kernel.entities = st.kernel.entities
    ∧ ((runAct st a).1).kernel.phases = st.kernel.phases
    ∧ ((runAct st a).1).kernel.phaseRegs = st.kernel.phaseRegs := by
  cases a with
  | draw name => exact ⟨rfl, rfl, rfl⟩
  | reg i hh ph => exact absurd ha (by simp [actRegFree])
  | unreg hh => exact absurd ha (by simp [actRegFree])
  | fail c => exact ⟨rfl, rfl, rfl⟩

theorem runActs_regFree : ∀ (l : List Act), regFree l = true → ∀ st : SimState,
    ((runActs st l).1).kernel.entities = st.kernel.entities
    ∧ ((runActs st l).1).kernel.phases = st.kernel.phases
    ∧ ((runActs st l).1).kernel.phaseRegs = st.kernel.phaseRegs := by
  intro l
  induction l with
  | nil => intro _ st; exact ⟨rfl, rfl, rfl⟩
  | cons a rest ih =>
      intro hl st
      simp only [regFree, List.all_cons, Bool.and_eq_true] at hl
      obtain ⟨ha, hrest⟩ := hl
      obtain ⟨f1, f2, f3⟩ := runAct_regFree st a ha
      unfold runActs
      cases hra : runAct st a with
      | mk st' e =>
          rw [hra] at f1 f2 f3
          dsimp only at f1 f2 f3
          cases e with
          | none =>
              obtain ⟨g1, g2, g3⟩ := ih hrest st'
              exact ⟨g1.trans f1, g2.trans f2, g3.trans f3⟩
          | some err => exact ⟨f1, f2, f3⟩

theorem runEntity_regFree (env : Env) (henv : ∀ h, regFree (env h) = true) (st : SimState)
    (x : String × Nat) :
    ((runEntity env st x).1).kernel.entities = st.kernel.entities
    ∧ ((runEntity env st x).1).kernel.phases = st.kernel.phases
    ∧ ((runEntity env st x).1).kernel.phaseRegs = st.kernel.phaseRegs :=
  runActs_regFree (env x.2) (henv x.2) ⟨st.kernel, st.trace ++ [x], st.draws⟩

theorem runMembers_regFree (env : Env) (henv : ∀ h, regFree (env h) = true) :
    ∀ (mem : List (String × Nat)) (st : SimState),
    ((runMembers env st mem).1).kernel.entities = st.kernel.entities
    ∧ ((runMembers env st mem).1).kernel.phases = st.kernel.phases
    ∧ ((runMembers env st mem).1).kernel.phaseRegs = st.kernel.phaseRegs := by
  intro mem
  induction mem with
  | nil => intro st; exact ⟨rfl, rfl, rfl⟩
  | cons x rest ih =>
      intro st
      obtain ⟨f1, f2, f3⟩ := runEntity_regFree env henv st x
      unfold runMembers
      cases hre : runEntity env st x with
      | mk st' e =>
          rw [hre] at f1 f2 f3
          dsimp only at f1 f2 f3
          cases e with
          | none =>
              obtain ⟨g1, g2, g3⟩ := ih st'
              exact ⟨g1.trans f1, g2.trans f2, g3.trans f3⟩
          | some err => exact ⟨f1, f2, f3⟩

theorem runPhases_regFree (env : Env) (henv : ∀ h, regFree (env h) = true) :
    ∀ (ps : List String) (st : SimState),
    ((runPhases env st ps).1).kernel.entities = st.kernel.entities
    ∧ ((runPhases env st ps).1).kernel.phases = st.kernel.phases
    ∧ ((runPhases env st ps).1).kernel.phaseRegs = st.kernel.phaseRegs := by
  intro ps
  induction ps with
  | nil => intro st; exact ⟨rfl, rfl, rfl⟩
  | cons p rest ih =>
      intro st
      unfold runPhases
      cases hlk : lookupA st.kernel.phaseRegs p with
      | none => exact ⟨rfl, rfl, rfl⟩
      | some mem =>
          dsimp only
          obtain ⟨f1, f2, f3⟩ := runMembers_regFree env henv mem st
          cases hrm : runMembers env st mem with
          | mk st' e =>
              rw [hrm] at f1 f2 f3
              dsimp only at f1 f2 f3
              cases e with
              | none =>
                  dsimp only
                  obtain ⟨g1, g2, g3⟩ := ih st'
                  exact ⟨g1.trans f1, g2.trans f2, g3.trans f3⟩
              | some err => exact ⟨f1, f2, f3⟩

theorem stepK_regFree (env : Env) (henv : ∀ h, regFree (env h) = true) (st : SimState) :
    ((stepK env st).1).kernel.entities = st.kernel.entities
    ∧ ((stepK env st).1).kernel.phases = st.kernel.phases
    ∧ ((stepK env st).1).kernel.phaseRegs = st.kernel.phaseRegs := by
  obtain ⟨f1, f2, f3⟩ := runPhases_regFree env henv st.kernel.phases st
  unfold stepK
  cases hrp : runPhases env st st.kernel.phases with
  | mk st' e =>
      rw [hrp] at f1 f2 f3
      dsimp only at f1 f2 f3
      cases e with
      | none => exact ⟨f1, f2, f3⟩
      | some err => exact ⟨f1, f2, f3⟩

theorem runN_regFree (env : Env) (henv : ∀ h, regFree (env h) = true) :
    ∀ (n : Nat) (st : SimState),
    ((runN env n st).1).kernel.entities = st.kernel.entities
    ∧ ((runN env n st).1).kernel.phases = st.kernel.phases
    ∧ ((runN env n st).1).kernel.phaseRegs = st.kernel.phaseRegs := by
  intro n
  induction n with
  | zero => intro st; exact ⟨rfl, rfl, rfl⟩
  | succ n ih =>
      intro st
      obtain ⟨f1, f2, f3⟩ := stepK_regFree env henv st
      unfold runN
      cases hsk : stepK env st with
      | mk st' e =>
          rw [hsk] at f1 f2 f3
          dsimp only at f1 f2 f3
          cases e with
          | none =>
              obtain ⟨g1, g2, g3⟩ := ih st'
              exact ⟨g1.trans f1, g2.trans f2, g3.trans f3⟩
          | some err => exact ⟨f1, f2, f3⟩

theorem get_stream_nd (m : RNGManager) (name : String) (h : streamsND m) :
    streamsND (m.get_stream name).2 := by
  unfold RNGManager.get_stream
  cases hlk : lookupA m.streams name with
  | some s => exact h
  | none =>
      dsimp only [RNGManager.derive_seed]
      unfold streamsND at h ⊢
      dsimp only
      rw [lookupA_eq_none_iff] at hlk
      rw [List.map_append, List.nodup_append]
      refine ⟨h, by simp, ?_⟩
      intro x hx
      simp only [List.map_cons, List.map_nil, List.mem_singleton]
      intro hxn
      subst hxn
      exact hlk hx

theorem draw_nd (m : RNGManager) (name : String) (h : streamsND m) :
    streamsND (m.draw name).2 := by
  have h2 := get_stream_nd m name h
  unfold RNGManager.draw
  dsimp only
  unfold streamsND at h2 ⊢
  exact nodup_keys_updateA _ _ _ h2

theorem runAct_nd (st : SimState) (a : Act) (h : streamsND st.kernel.rngManager) :
    streamsND ((runAct st a).1).kernel.rngManager := by
  cases a with
  | draw name => exact draw_nd st.kernel.rngManager name h
  | reg i e p =>
      show streamsND ((st.kernel.register i e p).1).rngManager
      rw [(register_frame st.kernel i e p).2.1]
      exact h
  | unreg e => exact h
  | fail c => exact h

theorem runActs_nd : ∀ (l : List Act) (st : SimState),
    streamsND st.kernel.rngManager → streamsND ((runActs st l).1).kernel.rngManager := by
  intro l
  induction l with
  | nil => intro st h; exact h
  | cons a rest ih =>
      intro st h
      have f := runAct_nd st a h
      unfold runActs
      cases hra : runAct st a with
      | mk st' e =>
          rw [hra] at f
          cases e with
          | none => exact ih st' f
          | some err => exact f

theorem runEntity_nd (env : Env) (st : SimState) (x : String × Nat)
    (h : streamsND st.kernel.rngManager) :
    streamsND ((runEntity env st x).1).kernel.rngManager :=
  runActs_nd (env x.2) ⟨st.kernel, st.trace ++ [x], st.draws⟩ h

theorem runMembers_nd (env : Env) : ∀ (mem : List (String × Nat)) (st : SimState),
    streamsND st.kernel.rngManager → streamsND ((runMembers env st mem).1).kernel.rngManager := by
  intro mem
  induction mem with
  | nil => intro st h; exact h
  | cons x rest ih =>
      intro st h
      have f := runEntity_nd env st x h
      unfold runMembers
      cases hre : runEntity env st x with
      | mk st' e =>
          rw [hre] at f
          cases e with
          | none => exact ih st' f
          | some err => exact f

theorem runPhases_nd (env : Env) : ∀ (ps : List String) (st : SimState),
    streamsND st.kernel.rngManager → streamsND ((runPhases env st ps).1).kernel.rngManager := by
  intro ps
  induction ps with
  | nil => intro st h; exact h
  | cons p rest ih =>
      intro st h
      unfold runPhases
      cases hlk : lookupA st.kernel.phaseRegs p with
      | none => exact h
      | some mem =>
          dsimp only
          have f := runMembers_nd env mem st h
          cases hrm : runMembers env st mem with
          | mk st' e =>
              rw [hrm] at f
              cases e with
              | none => exact ih st' f
              | some err => exact f

theorem stepK_nd (env : Env) (st : SimState) (h : streamsND st.kernel.rngManager) :
    streamsND ((stepK env st).1).kernel.rngManager := by
  have f := runPhases_nd env st.kernel.phases st h
  unfold stepK
  cases hrp : runPhases env st st.kernel.phases with
  | mk st' e =>
      rw [hrp] at f
      cases e with
      | none => exact f
      | some err => exact f

theorem runN_nd (env : Env) : ∀ (n : Nat) (st : SimState),
    streamsND st.kernel.rngManager → streamsND ((runN env n st).1).kernel.rngManager := by
  intro n
  induction n with
  | zero => intro st h; exact h
  | succ n ih =>
      intro st h
      have f := stepK_nd env st h
      unfold runN
      cases hsk : stepK env st with
      | mk st' e =>
          rw [hsk] at f
          cases e with
          | none => exact ih st' f
          | some err => exact f

theorem importStream_fold_fresh : ∀ (strs : List (String × PRNG)) (acc : RNGManager),
    (∀ n ∈ strs.map Prod.fst, lookupA acc.streams n = none) →
    (strs.map Prod.fst).Nodup →
    strs.foldl importStream acc
      = ⟨acc.master_seed, acc.master,
         acc.streams ++ strs.map (fun p => (p.1, (⟨0, p.2⟩ : RNGStream)))⟩ := by
  intro strs
  induction strs with
  | nil =>
      intro acc _ _
      cases acc
      simp
  | cons ns rest ih =>
      intro acc hnone hnd
      obtain ⟨n1, st1⟩ := ns
      simp only [List.map_cons, List.nodup_cons] at hnd
      have hn1 : lookupA acc.streams n1 = none := hnone n1 (by simp)
      have himp : importStream acc (n1, st1)
          = ⟨acc.master_seed, acc.master, acc.streams ++ [(n1, (⟨0, st1⟩ : RNGStream))]⟩ := by
        unfold importStream
        rw [hn1]
      have hnone' : ∀ n ∈ rest.map Prod.fst,
          lookupA (acc.streams ++ [(n1, (⟨0, st1⟩ : RNGStream))]) n = none := by
        intro n hn
        have hne : n1 ≠ n := fun hh => hnd.1 (by rw [hh]; exact hn)
        rw [lookupA_append_right_none]
        · exact hnone n (by simp [hn])
        · rw [lookupA_cons_ne _ _ _ _ hne]
          rfl
      rw [List.foldl_cons, himp,
        ih ⟨acc.master_seed, acc.master, acc.streams ++ [(n1, (⟨0, st1⟩ : RNGStream))]⟩
          hnone' hnd.2]
      dsimp only
      rw [List.append_assoc]
      rfl

theorem keys_map_rng (l : List (String × RNGStream)) :
    ((l.map (fun p => (p.1, (p.2).rng))).map Prod.fst) = l.map Prod.fst := by
  induction l with
  | nil => rfl
  | cons x rest ih => simp [ih]

theorem map_rng_zero (l : List (String × RNGStream)) :
    (((l.map (fun p => (p.1, (p.2).rng))).map
        (fun p => (p.1, (⟨0, p.2⟩ : RNGStream)))).map (fun p => (p.1, (p.2).rng)))
      = l.map (fun p => (p.1, (p.2).rng)) := by
  induction l with
  | nil => rfl
  | cons x rest ih => simp [ih]

theorem restore_fresh_meq (korig kfresh : Kernel)
    (hfs : kfresh.rngManager.streams = [])
    (hnd : streamsND korig.rngManager)
    (hent : kfresh.entities = korig.entities)
    (hregs : kfresh.phaseRegs = korig.phaseRegs) :
    ((kfresh.restore korig.snapshot).2 = none)
    ∧ KEq ((kfresh.restore korig.snapshot).1) korig := by
  have hstep : ((kfresh.restore korig.snapshot).1).rngManager
      = (korig.rngManager.streams.map (fun p => (p.1, (p.2).rng))).foldl importStream
          ⟨kfresh.rngManager.master_seed, korig.rngManager.master,
           kfresh.rngManager.streams⟩ := rfl
  rw [hfs] at hstep
  rw [importStream_fold_fresh _ _ (by intro n _; rfl) (by rw [keys_map_rng]; exact hnd)]
      at hstep
  refine ⟨rfl, ⟨rfl, hent, rfl, hregs, ?_, ?_⟩⟩
  · rw [hstep]
  · rw [hstep]
    dsimp only
    rw [List.nil_append, map_rng_zero]

theorem register_regEq (k1 k2 : Kernel) (h1 : k1.entities = k2.entities)
    (h2 : k1.phases = k2.phases) (h3 : k1.phaseRegs = k2.phaseRegs)
    (id : String) (ent : Nat) (p : Option String) :
    ((k1.register id ent p).1).entities = ((k2.register id ent p).1).entities
    ∧ ((k1.register id ent p).1).phases = ((k2.register id ent p).1).phases
    ∧ ((k1.register id ent p).1).phaseRegs = ((k2.register id ent p).1).phaseRegs
    ∧ (k1.register id ent p).2 = (k2.register id ent p).2 := by
  cases k1 with
  | mk t1 m1 es1 ps1 regs1 =>
      cases k2 with
      | mk t2 m2 es2 ps2 regs2 =>
          replace h1 : es1 = es2 := h1
          replace h2 : ps1 = ps2 := h2
          replace h3 : regs1 = regs2 := h3
          subst h1
          subst h2
          subst h3
          rw [register_mk t1 m1 es1 ps1 regs1 id ent p,
            register_mk t2 m2 es1 ps1 regs1 id ent p]
          exact ⟨rfl, rfl, rfl, rfl⟩

theorem applyRegs_regEq : ∀ (R : List RegOp) (k1 k2 : Kernel),
    k1.entities = k2.entities → k1.phases = k2.phases → k1.phaseRegs = k2.phaseRegs →
    ((applyRegs k1 R).1).entities = ((applyRegs k2 R).1).entities
    ∧ ((applyRegs k1 R).1).phases = ((applyRegs k2 R).1).phases
    ∧ ((applyRegs k1 R).1).phaseRegs = ((applyRegs k2 R).1).phaseRegs
    ∧ (applyRegs k1 R).2 = (applyRegs k2 R).2 := by
  intro R
  induction R with
  | nil => intro k1 k2 h1 h2 h3; exact ⟨h1, h2, h3, rfl⟩
  | cons r rest ih =>
      intro k1 k2 h1 h2 h3
      obtain ⟨g1, g2, g3, g4⟩ := register_regEq k1 k2 h1 h2 h3 r.id r.ent r.phase
      unfold applyRegs
      cases hr1 : k1.register r.id r.ent r.phase with
      | mk k1' e1 =>
          cases hr2 : k2.register r.id r.ent r.phase with
          | mk k2' e2 =>
              rw [hr1, hr2] at g1 g2 g3 g4
              dsimp only at g1 g2 g3 g4
              subst g4
              cases e1 with
              | none => exact ih k1' k2' g1 g2 g3
              | some err => exact ⟨g1, g2, g3, rfl⟩

theorem init_fields (S : Nat) (P : Option (List String)) :
    (Kernel.init S P).time = 0
    ∧ (Kernel.init S P).rngManager = RNGManager.ofSeed S
    ∧ (Kernel.init S P).entities = [] := by
  cases P with
  | none => exact ⟨rfl, rfl, rfl⟩
  | some l =>
      cases l with
      | nil => exact ⟨rfl, rfl, rfl⟩
      | cons a t => exact ⟨rfl, rfl, rfl⟩

theorem init_seed_regEq (S S' : Nat) (P : Option (List String)) :
    (Kernel.init S' P).entities = (Kernel.init S P).entities
    ∧ (Kernel.init S' P).phases = (Kernel.init S P).phases
    ∧ (Kernel.init S' P).phaseRegs = (Kernel.init S P).phaseRegs := by
  cases P with
  | none => exact ⟨rfl, rfl, rfl⟩
  | some l =>
      cases l with
      | nil => exact ⟨rfl, rfl, rfl⟩
      | cons a t => exact ⟨rfl, rfl, rfl⟩

/-- C2: snapshot round-trip.  Run a kernel for k ticks from any seed,
registration sequence and (registry-preserving) entity behaviours;
snapshot it; build a fresh kernel with any other seed, re-register the
same entities in the same order, and restore the blob.  Then running
the continued original and the restored kernel for m further ticks
yields identical logical time, identical subsequent draw sequences
from every stream name, and the identical outcome. -/
theorem snapshot_roundtrip (S S' : Nat) (P : Option (List String)) (R : List RegOp)
    (env : Env) (k m : Nat)
    (hfree : ∀ h, regFree (env h) = true) :
    ((runN env m (resetObs (origRun S P R env k))).1).kernel.time
      = ((runN env m (initialSim (restoredK S S' P R env k))).1).kernel.time
    ∧ (∀ name, drawsOf name ((runN env m (resetObs (origRun S P R env k))).1)
        = drawsOf name ((runN env m (initialSim (restoredK S S' P R env k))).1))
    ∧ (runN env m (resetObs (origRun S P R env k))).2
        = (runN env m (initialSim (restoredK S S' P R env k))).2 := by
  have hfreshM : (setupK S' P R).rngManager = RNGManager.ofSeed S' :=
    ((applyRegs_frame R (Kernel.init S' P)).2.1).trans (init_fields S' P).2.1
  have hfs : (setupK S' P R).rngManager.streams = [] := by
    rw [hfreshM]
    rfl
  obtain ⟨i1, i2, i3⟩ := init_seed_regEq S S' P
  obtain ⟨q1, q2, q3, _⟩ := applyRegs_regEq R (Kernel.init S' P) (Kernel.init S P) i1 i2 i3
  obtain ⟨r1, r2, r3⟩ := runN_regFree env hfree k (initialSim (setupK S P R))
  have hent : (setupK S' P R).entities = (origRun S P R env k).kernel.entities :=
    q1.trans r1.symm
  have hregs : (setupK S' P R).phaseRegs = (origRun S P R env k).kernel.phaseRegs :=
    q3.trans r3.symm
  have hnd : streamsND (origRun S P R env k).kernel.rngManager := by
    apply runN_nd
    show streamsND ((applyRegs (Kernel.init S P) R).1).rngManager
    rw [(applyRegs_frame R (Kernel.init S P)).2.1, (init_fields S P).2.1]
    simp [streamsND, RNGManager.ofSeed]
  obtain ⟨hre, hkeq⟩ := restore_fresh_meq (origRun S P R env k).kernel (setupK S' P R) hfs hnd
      hent hregs
  have hseq : SEq (resetObs (origRun S P R env k)) (initialSim (restoredK S S' P R env k)) :=
    ⟨⟨hkeq.time.symm, hkeq.entities.symm, hkeq.phases.symm, hkeq.phaseRegs.symm,
      ⟨hkeq.rng.master.symm, hkeq.rng.streams.symm⟩⟩, rfl, rfl⟩
  obtain ⟨hs, herr⟩ := runN_cong env m _ _ hseq
  refine ⟨hs.kernel.time, ?_, herr⟩
  intro name
  unfold drawsOf
  rw [hs.draws]

theorem snapshot_roundtrip_w :
    (∀ h : Nat, regFree (envDrawS h) = true)
    ∧ ((runN envDrawS 2 (resetObs
          (origRun 3 (some ["p", "q"]) [⟨"A", 1, some "p"⟩] envDrawS 1))).1).kernel.time
        = ((runN envDrawS 2 (initialSim
            (restoredK 3 17 (some ["p", "q"]) [⟨"A", 1, some "p"⟩] envDrawS 1))).1).kernel.time
    ∧ drawsOf "s" ((runN envDrawS 2 (resetObs
          (origRun 3 (some ["p", "q"]) [⟨"A", 1, some "p"⟩] envDrawS 1))).1)
        = drawsOf "s" ((runN envDrawS 2 (initialSim
            (restoredK 3 17 (some ["p", "q"]) [⟨"A", 1, some "p"⟩] envDrawS 1))).1) :=
  ⟨fun _ => rfl,
   (snapshot_roundtrip 3 17 (some ["p", "q"]) [⟨"A", 1, some "p"⟩] envDrawS 1 2
     (fun _ => rfl)).1,
   (snapshot_roundtrip 3 17 (some ["p", "q"]) [⟨"A", 1, some "p"⟩] envDrawS 1 2
     (fun _ => rfl)).2.1 "s"⟩

end AgentSimLab
